import Mathlib

/-!
Verification of the nimble mod-synchronisation engine.

The definitions below are a shallow embedding of the Rust sources:
`src/commands/sync.rs`, `src/commands/diff.rs`, `src/commands/download.rs`,
`src/mod_cache.rs` and `src/repository.rs`.  Filesystem state is passed
explicitly, HTTP and hashing are oracles supplied through an environment
record, and machine integers are modelled as `Nat` (no arithmetic in the
embedded code overflows).  The modules `srf.rs` and `md5_digest.rs` are
declared by `lib.rs` but their sources are not in the repository snapshot;
the handful of operations the embedded functions need from them (manifest
parsing, directory scanning, digest validation, file hashing) are modelled
from the specification and are marked as such.
-/

namespace Nimble

/-- Character code of a left curly brace. -/
def lbrace : Char := Char.ofNat 123

/-- Character code of a right curly brace. -/
def rbrace : Char := Char.ofNat 125

/-- Rust `char::is_ascii_hexdigit`. -/
def isAsciiHexDigit (c : Char) : Bool :=
  c.isDigit || ('a' ≤ c && c ≤ 'f') || ('A' ≤ c && c ≤ 'F')

/-- Index of the first occurrence of `pat` in `s` (Rust `str::find` on
ASCII data; indices are counted in characters). -/
def findSub (s pat : List Char) : Option Nat :=
  if pat.isPrefixOf s then some 0
  else
    match s with
    | [] => none
    | _ :: t => (findSub t pat).map (· + 1)

/-- `srf::Mod` file entry: relative path, byte length, per-file digest. -/
structure SrfFile where
  path : String
  length : Nat
  checksum : String
deriving DecidableEq

/-- `srf::Mod`: per-mod manifest (name, aggregate digest, file list). -/
structure SrfMod where
  name : String
  checksum : String
  files : List SrfFile
deriving DecidableEq

/-- `repository::Mod`: one entry of the remote repository manifest. -/
structure RepoMod where
  mod_name : String
  checksum : String
  enabled : Bool
deriving DecidableEq

/-- `repository::Repository` (fields the sync path reads). -/
structure Repository where
  repo_name : String
  checksum : String
  required_mods : List RepoMod
  optional_mods : List RepoMod
  version : String
deriving DecidableEq

/-- `mod_cache::Mod`: the value stored per digest in the cache. -/
structure CacheMod where
  name : String
deriving DecidableEq

/-- `mod_cache::ModCache` as persisted in `nimble-cache.json`; the `mods`
map is an association list from digest to `CacheMod`. -/
structure ModCache where
  version : Nat
  mods : List (String × CacheMod)
  repository : Option Repository
  last_updated : Option Nat
  last_sync : Option Nat
deriving DecidableEq

/-- `commands::types::DownloadCommand` (`end` is a Lean keyword, hence
`begin_`/`end_`). -/
structure DownloadCommand where
  file : String
  begin_ : Nat
  end_ : Nat
deriving DecidableEq

/-- `commands::types::DeleteCommand`. -/
structure DeleteCommand where
  file : String
deriving DecidableEq

/-! ### String helpers from `repository.rs` and `diff.rs` -/

/-- Rust `url.trim_end_matches('/')`. -/
def trimEndSlashes (s : String) : String :=
  ⟨(s.data.reverse.dropWhile (· = '/')).reverse⟩

/-- Rust `file_path.trim_start_matches('/')`. -/
def trimStartSlashes (s : String) : String :=
  ⟨s.data.dropWhile (· = '/')⟩

/-- `repository::normalize_repo_url`. -/
def normalize_repo_url (url : String) : String :=
  trimEndSlashes url ++ "/"

/-- `repository::make_repo_file_url`. -/
def make_repo_file_url (base_url file_path : String) : String :=
  normalize_repo_url base_url ++ trimStartSlashes file_path

/-- ASCII lowercasing of a character list (`str::to_lowercase` on the
ASCII paths the manifests carry). -/
def lowerChars (l : List Char) : List Char := l.map Char.toLower

/-- `diff::normalize_path`: forward slashes, lowercased. -/
def normalize_path (path : String) : String :=
  ⟨lowerChars (path.data.map fun c => if c = '\\' then '/' else c)⟩

/-- Strip a leading UTF-8 byte-order mark
(Rust `buf.trim_start_matches(BOM)`). -/
def trimBom (s : String) : String :=
  ⟨s.data.dropWhile (· = '\uFEFF')⟩

/-! ### `sync.rs`: partial-manifest checksum extraction -/

/-- `sync::ChecksumExtractionError`. -/
inductive ChecksumExtractionError where
  | NoJsonStart
  | NoChecksumField
  | MalformedChecksum (details : String)
  | InvalidLength (len : Nat)
  | NonHexCharacters
deriving DecidableEq

/-- The four field patterns probed by `sync::extract_checksum`, in order. -/
def checksum_patterns : List String :=
  ["\"Checksum\":\"", "\"checksum\":\"", "\"Checksum\": \"", "\"checksum\": \""]

/-- Validation applied by `sync::extract_checksum` to a located quoted
value (length, hex characters, then the JSON-corruption check). -/
def validateChecksum (checksum : String) :
    Except ChecksumExtractionError String :=
  if checksum.length ≠ 32 then
    .error (.InvalidLength checksum.length)
  else if ¬ checksum.data.all isAsciiHexDigit then
    .error .NonHexCharacters
  else if checksum.data.contains lbrace || checksum.data.contains rbrace
      || checksum.data.contains '[' || checksum.data.contains ']' then
    .error (.MalformedChecksum "Contains invalid JSON characters")
  else
    .ok checksum

/-- One iteration of the pattern loop of `sync::extract_checksum`:
`none` means this pattern does not locate a quoted value and the loop
moves on; `some r` means the loop returns `r`. -/
def tryPattern (json pat : String) :
    Option (Except ChecksumExtractionError String) :=
  match findSub json.data pat.data with
  | none => none
  | some start_pos =>
    let quote_pos := start_pos + pat.length
    let rest := json.data.drop quote_pos
    match findSub rest ['\"'] with
    | none => none
    | some end_quote => some (validateChecksum ⟨rest.take end_quote⟩)

/-- The pattern loop of `sync::extract_checksum`. -/
def patternLoop (json : String) :
    List String → Option (Except ChecksumExtractionError String)
  | [] => none
  | pat :: pats =>
    match tryPattern json pat with
    | some r => some r
    | none => patternLoop json pats

/-- Rust `json.starts_with(char)`: test on the first character. -/
def startsWithBrace (json : String) : Bool :=
  match json.data with
  | [] => false
  | c :: _ => c = lbrace

/-- `sync::extract_checksum`. -/
def extract_checksum (json : String) :
    Except ChecksumExtractionError String :=
  if !startsWithBrace json then .error .NoJsonStart
  else
    match patternLoop json checksum_patterns with
    | some r => r
    | none => .error .NoChecksumField

/-! ### Association-list maps (Rust `HashMap` with string keys) -/

/-- Lookup in an association list (`HashMap::get`). -/
def lookupA {α : Type} : List (String × α) → String → Option α
  | [], _ => none
  | (k', v) :: t, k => if k' = k then some v else lookupA t k

/-- Insert-or-replace (`HashMap::insert`). -/
def insertA {α : Type} : List (String × α) → String → α → List (String × α)
  | [], k, v => [(k, v)]
  | (k', v') :: t, k, v =>
    if k' = k then (k, v) :: t else (k', v') :: insertA t k v

/-- Remove a key (`HashMap::remove`). -/
def removeA {α : Type} : List (String × α) → String → List (String × α)
  | [], _ => []
  | (k', v') :: t, k => if k' = k then t else (k', v') :: removeA t k

/-! ### Filesystem and event-trace model

Paths are strings relative to the sync base directory, joined with `/`.
Each file holds a `FileData`; parseability of the on-disk encodings is
part of the data (the byte-level codecs live in the absent `srf.rs`). -/

/-- Content of a file in the model. -/
inductive FileData where
  /-- A `mod.srf` in the current JSON encoding, holding manifest `m`. -/
  | srfCur (m : SrfMod)
  /-- A `mod.srf` in the legacy encoding, holding manifest `m`. -/
  | srfLegacy (m : SrfMod)
  /-- An unparseable manifest file. -/
  | srfBad
  /-- An ordinary file with the given bytes. -/
  | blob (bytes : List Nat)
  /-- A parseable `nimble-cache.json` holding cache `c`. -/
  | cacheF (c : ModCache)
  /-- An undecodable (for instance truncated) cache file. -/
  | cacheBad
deriving DecidableEq

/-- Byte length of a file (used by `scan_mod` for manifest entries). -/
def FileData.size : FileData → Nat
  | .blob bytes => bytes.length
  | _ => 0

/-- The filesystem: files keyed by relative path, plus created directories. -/
structure FS where
  files : List (String × FileData)
  dirs : List String
deriving DecidableEq

def FS.lookup (fs : FS) (p : String) : Option FileData := lookupA fs.files p

def FS.fileExists (fs : FS) (p : String) : Bool := (fs.lookup p).isSome

def FS.dirExists (fs : FS) (d : String) : Bool := fs.dirs.contains d

def FS.write (fs : FS) (p : String) (d : FileData) : FS :=
  { fs with files := insertA fs.files p d }

def FS.remove (fs : FS) (p : String) : FS :=
  { fs with files := removeA fs.files p }

def FS.mkdir (fs : FS) (d : String) : FS :=
  { fs with dirs := if fs.dirs.contains d then fs.dirs else d :: fs.dirs }

/-- Where a temporary file is opened. -/
inductive TempLoc where
  | systemTmp
  | inDir (d : String)
deriving DecidableEq

/-- Observable actions of the embedded code, in program order. -/
inductive Ev where
  | getHttp (url : String) (range : Option String)
  | removeFile (p : String)
  | createDir (p : String)
  /-- `diff_mod` writing a freshly generated local manifest. -/
  | writeSrf (p : String) (m : SrfMod)
  /-- `save_srf_files` writing a remote manifest after downloads. -/
  | saveSrf (p : String) (m : SrfMod)
  /-- `File::create` truncating an existing path in place. -/
  | createTruncate (p : String)
  | writeCache (p : String) (c : ModCache)
  | createTemp (loc : TempLoc)
  | writeTempChunk (n : Nat)
  /-- `File::create` of a download destination. -/
  | createDest (p : String)
  | copyTempToDest (p : String)
  /-- Atomic rename of a temporary file onto `p` (no embedded function
  emits this; it is the vocabulary of the atomic-placement claims). -/
  | renameTempTo (p : String)
deriving DecidableEq

/-- Program state threaded through the embedding: filesystem, event
trace, and the index of the next cancellation-flag read. -/
structure St where
  fs : FS
  trace : List Ev
  clock : Nat
deriving DecidableEq

def St.emit (st : St) (e : Ev) : St := { st with trace := st.trace ++ [e] }

def St.tick (st : St) : St := { st with clock := st.clock + 1 }

def St.rmFile (st : St) (p : String) : St :=
  let st := st.emit (.removeFile p)
  { st with fs := st.fs.remove p }

def St.mkdirAll (st : St) (d : String) : St :=
  let st := st.emit (.createDir d)
  { st with fs := st.fs.mkdir d }

/-! ### Oracles -/

/-- One `Read::read` outcome of an HTTP response body. -/
inductive ReadRes where
  | chunk (bytes : List Nat)
  | readErr
deriving DecidableEq

/-- An HTTP response for a file download: the `Content-Length` header
value (0 when absent or unparseable) and the body read outcomes. -/
structure Reader where
  contentLength : Nat
  chunks : List ReadRes
deriving DecidableEq

/-- Environment: HTTP responses, the hash functions of the absent
`md5_digest.rs`/`srf.rs`, the cancellation flag, and the clock. -/
structure Env where
  /-- Modelled from the spec: the aggregate digest folded by
  `srf::scan_mod` from the mod name and the sorted entries
  (`srf.rs` is not in src). -/
  agg : String → List SrfFile → String
  /-- Modelled from the spec: `Md5Digest::from_file` content hashing
  (`md5_digest.rs` is not in src). -/
  md5F : FileData → String
  /-- Outcome of `repository::get_repository_info`. -/
  repoResp : Except Unit Repository
  /-- Body returned for a `download_srf_part` request
  (URL, optional Range header value). -/
  srfBody : String → Option String → Except Unit String
  /-- Modelled from the spec: full parse of a fetched SRF body, current
  or legacy encoding (`srf.rs` is not in src). -/
  parseSrfStr : String → Except Unit SrfMod
  /-- Response for a file-download GET. -/
  blob : String → Except Unit Reader
  /-- Value of the shared `AtomicBool` at its n-th read. -/
  cancel : Nat → Bool
  /-- `chrono::Utc::now()` when the cache is saved. -/
  now : Nat

/-- Modelled from the spec: `Md5Digest::new` accepts exactly 32 hex
characters case-insensitively and normalises to lowercase
(`md5_digest.rs` is not in src). -/
def md5Digest_new (s : String) : Option String :=
  if s.length = 32 && s.data.all isAsciiHexDigit then
    some ⟨lowerChars s.data⟩
  else none

/-! ### `mod_cache.rs` -/

/-- `mod_cache::Error`. -/
inductive CacheError where
  | FileCreation
  | FileOpen
  | Serialization
  | Deserialization
deriving DecidableEq

def cacheFileName : String := "nimble-cache.json"

/-- `ModCache::new_empty`. -/
def ModCache.new_empty : ModCache :=
  { version := 1, mods := [], repository := none,
    last_updated := none, last_sync := none }

/-- `ModCache::insert`. -/
def ModCache.insert (c : ModCache) (m : SrfMod) : ModCache :=
  { c with mods := insertA c.mods m.checksum ⟨m.name⟩ }

/-- `ModCache::from_disk` (a missing file is the `FileOpen` error the
caller inspects for `NotFound`; an undecodable file is
`Deserialization`). -/
def ModCache.from_disk (fs : FS) : Except CacheError ModCache :=
  match fs.lookup cacheFileName with
  | none => .error .FileOpen
  | some (.cacheF c) => .ok c
  | some _ => .error .Deserialization

/-- `ModCache::from_disk_or_empty`. -/
def ModCache.from_disk_or_empty (fs : FS) : Except CacheError ModCache :=
  match ModCache.from_disk fs with
  | .ok cache => .ok cache
  | .error .FileOpen => .ok ModCache.new_empty
  | .error e => .error e

/-- `ModCache::to_disk`: `File::create` (which truncates the existing
`nimble-cache.json` in place) followed by `serde_json::to_writer`. -/
def ModCache.to_disk (c : ModCache) (st : St) : St :=
  let st := st.emit (.createTruncate cacheFileName)
  let st := { st with fs := st.fs.write cacheFileName .cacheBad }
  let st := st.emit (.writeCache cacheFileName c)
  { st with fs := st.fs.write cacheFileName (.cacheF c) }

/-! ### `srf.rs` operations (modelled from the spec) -/

/-- Path of a mod's manifest below the base directory. -/
def srfPath (mod_name : String) : String := mod_name ++ "/mod.srf"

/-- Reading and parsing an on-disk `mod.srf`: the `is_legacy_srf` probe
followed by the matching deserialiser.  Modelled from the spec
(`srf.rs` is not in src): both encodings carry their manifest; any
other content fails to decode. -/
def readSrfData : FileData → Except Unit SrfMod
  | .srfCur m => .ok m
  | .srfLegacy m => .ok m
  | _ => .error ()

/-- Modelled from the spec: `srf::Mod::generate_invalid` builds a
placeholder with the remote name, the all-zero digest and no files. -/
def SrfMod.generate_invalid (remote : SrfMod) : SrfMod :=
  { name := remote.name,
    checksum := "00000000000000000000000000000000", files := [] }

/-- Insertion into a list sorted by `le`. -/
def insertSortedBy (le : SrfFile → SrfFile → Bool) (x : SrfFile) :
    List SrfFile → List SrfFile
  | [] => [x]
  | y :: t => if le x y then x :: y :: t else y :: insertSortedBy le x t

/-- Insertion sort by `le`. -/
def sortFilesBy (le : SrfFile → SrfFile → Bool) : List SrfFile → List SrfFile
  | [] => []
  | x :: t => insertSortedBy le x (sortFilesBy le t)

/-- Boolean lexicographic order on character lists. -/
def charListLe : List Char → List Char → Bool
  | [], _ => true
  | _ :: _, [] => false
  | a :: as, b :: bs => if a = b then charListLe as bs else decide (a < b)

/-- The canonical entry order: lowercased path, ascending. -/
def scanOrder (a b : SrfFile) : Bool :=
  charListLe (lowerChars a.path.data) (lowerChars b.path.data)

/-- Modelled from the spec: `srf::scan_mod` walks the mod directory,
skips `mod.srf` itself, records each file relative to the directory,
sorts the entries by lowercased path and folds them into the aggregate
digest (`srf.rs` is not in src). -/
def scan_mod (env : Env) (fs : FS) (dir : String) : SrfMod :=
  let dirPre := dir ++ "/"
  let entries := fs.files.filterMap fun kv =>
    if dirPre.data.isPrefixOf kv.1.data && kv.1 ≠ srfPath dir then
      some { path := (⟨kv.1.data.drop dirPre.length⟩ : String),
             length := kv.2.size, checksum := env.md5F kv.2 }
    else none
  let sorted := sortFilesBy scanOrder entries
  { name := dir, checksum := env.agg dir sorted, files := sorted }

/-! ### `diff.rs` -/

/-- `diff::QuickDiffResult`. -/
inductive QuickDiffResult where
  | UpToDate
  | NeedsFull
deriving DecidableEq

/-- `diff::Error` (the variants the embedded paths can produce). -/
inductive DiffError where
  | Io
  | SrfDeserialization
  | LegacySrfDeserialization
  | SrfGeneration
deriving DecidableEq

/-- Parse failure mapped as in `quick_diff`/`diff_mod`: a legacy file
that fails decodes to `LegacySrfDeserialization`, a current one to
`SrfDeserialization`; in the model an unparseable file reports the
current-encoding error. -/
def readLocalSrf : FileData → Except DiffError SrfMod
  | .srfCur m => .ok m
  | .srfLegacy m => .ok m
  | _ => .error .SrfDeserialization

/-- `diff::verify_file_checksum` (`Md5Digest::from_file` on the path). -/
def verify_file_checksum (env : Env) (fs : FS) (p : String) :
    Except Unit String :=
  match fs.lookup p with
  | some fd => .ok (env.md5F fd)
  | none => .error ()

/-- `diff::quick_diff`. -/
def quick_diff (fs : FS) (remote_mod : RepoMod) (remote_srf : SrfMod) :
    Except DiffError QuickDiffResult :=
  match fs.lookup (srfPath remote_mod.mod_name) with
  | none => .ok .NeedsFull
  | some fd =>
    match readLocalSrf fd with
    | .error e => .error e
    | .ok local_srf =>
      if local_srf.checksum = remote_srf.checksum then .ok .UpToDate
      else .ok .NeedsFull

/-- Decision of the per-file `match` in `diff_mod` (lines 195–266 of
`diff.rs`): `true` when a download command is pushed for this remote
entry. -/
def needsDownload (env : Env) (fs : FS) (dir : String)
    (local_file : Option SrfFile) (file : SrfFile)
    (normalized_path : String) : Bool :=
  let full_path := dir ++ "/" ++ normalized_path
  match local_file with
  | some lf =>
    if file.checksum ≠ lf.checksum then
      if !(fs.fileExists full_path) then true
      else
        match verify_file_checksum env fs full_path with
        | .ok actual => !(actual = file.checksum)
        | .error _ => true
    else false
  | none =>
    if !(fs.fileExists full_path) then true
    else
      match verify_file_checksum env fs full_path with
      | .ok actual => !(actual = file.checksum)
      | .error _ => true

/-- The drain loop over the remote file map in `diff_mod`: for each
remote entry, remove its key from the local map and decide whether to
enqueue a download; returns the download list and the leftover local
map. -/
def diffFilesLoop (env : Env) (fs : FS) (dir : String) :
    List (String × SrfFile) → List (String × SrfFile) →
    List DownloadCommand →
    List DownloadCommand × List (String × SrfFile)
  | [], locals, dl => (dl, locals)
  | (path, file) :: rest, locals, dl =>
    let local_file := lookupA locals path
    let locals := removeA locals path
    let full_repo_path := make_repo_file_url (normalize_repo_url dir) path
    let normalized_path := normalize_path path
    let dl :=
      if needsDownload env fs dir local_file file normalized_path then
        dl ++ [{ file := full_repo_path, begin_ := 0, end_ := file.length }]
      else dl
    diffFilesLoop env fs dir rest locals dl

/-- Key the files of a manifest by their (exact, un-normalised) path,
later inserts replacing earlier ones (`HashMap::insert`). -/
def fileMapOf (files : List SrfFile) : List (String × SrfFile) :=
  files.foldl (fun m f => insertA m f.path f) []

/-- Directory creation and initial-SRF generation of `diff::diff_mod`
(lines 120–137). -/
def diff_mod_gen_step (env : Env) (st : St) (dir : String)
    (remote_srf : SrfMod) : St :=
  let srfP := srfPath dir
  -- ensure the mod directory exists
  let st := if !(st.fs.dirExists dir) then st.mkdirAll dir else st
  -- generate the SRF file if it does not exist
  if !(st.fs.fileExists srfP) then
    let initial_srf :=
      if st.fs.dirExists dir then scan_mod env st.fs dir
      else SrfMod.generate_invalid remote_srf
    let st := st.emit (.writeSrf srfP initial_srf)
    { st with fs := st.fs.write srfP (.srfCur initial_srf) }
  else st

/-- The filesystem-mutating prefix of `diff::diff_mod` (lines 112–137):
optional force removal of the local SRF, then directory creation and
generation of the initial SRF when absent. -/
def diff_mod_fs_step (env : Env) (st : St) (dir : String)
    (remote_srf : SrfMod) (force_scan : Bool) : St :=
  let srfP := srfPath dir
  -- if force scan, delete the local SRF file first
  let st := if force_scan && st.fs.fileExists srfP then st.rmFile srfP else st
  diff_mod_gen_step env st dir remote_srf

/-- `diff::diff_mod`. -/
def diff_mod (env : Env) (st : St) (remote_mod : RepoMod)
    (remote_srf : SrfMod) (force_scan : Bool) :
    St × Except DiffError (List DownloadCommand × List DeleteCommand) :=
  let dir := remote_mod.mod_name
  let srfP := srfPath dir
  let st := diff_mod_fs_step env st dir remote_srf force_scan
  -- read the local SRF file (which now exists)
  match st.fs.lookup srfP with
  | none => (st, .error .Io)
  | some fd =>
    match readLocalSrf fd with
    | .error e => (st, .error e)
    | .ok local_srf =>
      if local_srf.checksum = remote_srf.checksum
          && local_srf.files.length = remote_srf.files.length
          && st.fs.dirExists dir then
        (st, .ok ([], []))
      else
        let local_files := fileMapOf local_srf.files
        let remote_files := fileMapOf remote_srf.files
        let (download_list, leftovers) :=
          diffFilesLoop env st.fs dir remote_files local_files []
        (st, .ok (download_list, leftovers.map fun kv => { file := kv.1 }))

/-! ### `download.rs` -/

/-- `download::Error` (also the per-task errors inside
`sync::execute_command_list`). -/
inductive DlError where
  | Io
  | Http (url : String)
  | Cancelled
deriving DecidableEq

/-- The `while let Ok(n) = reader.read(&mut buffer)` loop of
`download_file`: a read error or a zero-length read ends the loop
normally; otherwise the cancellation flag is read, the chunk is written
to the temporary file and the loop continues. -/
def dlLoop (env : Env) (total_size : Nat) :
    List ReadRes → List Nat → St → St × Except DlError (Nat × List Nat)
  | [], acc, st => (st, .ok (total_size, acc))
  | .readErr :: _, acc, st => (st, .ok (total_size, acc))
  | .chunk [] :: _, acc, st => (st, .ok (total_size, acc))
  | .chunk bytes :: rest, acc, st =>
    if env.cancel st.clock then (st.tick, .error .Cancelled)
    else
      let st := (st.tick).emit (.writeTempChunk bytes.length)
      dlLoop env total_size rest (acc ++ bytes) st

/-- `download::download_file` (the identical loop also appears in
`sync.rs`): issue the GET, then stream the body into the temporary
file.  Returns the `Content-Length` value and the bytes written. -/
def download_file (env : Env) (st : St) (remote_url : String) :
    St × Except DlError (Nat × List Nat) :=
  let st := st.emit (.getHttp remote_url none)
  match env.blob remote_url with
  | .error _ => (st, .error (.Http remote_url))
  | .ok rdr => dlLoop env rdr.contentLength rdr.chunks [] st

/-- Parent of a relative path (Rust `Path::parent`, empty for a
single-component path). -/
def parentDir (p : String) : String :=
  ⟨((p.data.reverse.dropWhile (· ≠ '/')).reverse).dropLast⟩

/-- The per-task procedure shared by the worker closure of
`download::execute_command_list` (lines 104–141) and the loop body of
`sync::execute_command_list` (lines 169–209): open a temporary file
with `tempfile()` (system temporary directory), download into it, then
create the destination's parent directory, `File::create` the
destination and copy the temporary file's contents into it. -/
def download_task (env : Env) (st : St) (remote_base : String)
    (command : DownloadCommand) : St × Except DlError Unit :=
  let st := st.emit (.createTemp .systemTmp)
  let remote_url := make_repo_file_url remote_base command.file
  match download_file env st remote_url with
  | (st, .error e) => (st, .error e)
  | (st, .ok (_, bytes)) =>
    let file_path := command.file
    let st := st.mkdirAll (parentDir file_path)
    let st := st.emit (.createDest file_path)
    let st := { st with fs := st.fs.write file_path (.blob []) }
    let st := st.emit (.copyTempToDest file_path)
    let st := { st with fs := st.fs.write file_path (.blob bytes) }
    (st, .ok ())

/-- The error aggregation of `download::execute_command_list`
(lines 160–184): failures collected from the result channel once all
tasks have settled, `Cancelled` dominating, else the first error. -/
def collect_errors : List (Except DlError Unit) → List DlError
  | [] => []
  | .ok _ :: rest => collect_errors rest
  | .error e :: rest => e :: collect_errors rest

/-- Lines 177–184 of `download.rs`. -/
def handle_errors (errors : List DlError) : Except DlError Unit :=
  if !errors.isEmpty then
    if errors.any (fun e => e = .Cancelled) then .error .Cancelled
    else
      match errors with
      | [] => .ok ()
      | e :: _ => .error e
  else .ok ()

/-- Batch outcome of `download::execute_command_list` as a function of
the settled per-task results. -/
def batch_outcome (results : List (Except DlError Unit)) :
    Except DlError Unit :=
  handle_errors (collect_errors results)

/-! ### `sync.rs` -/

/-- `sync::Error`. -/
inductive SyncError where
  | Io
  | Http (url : String)
  | RepositoryFetch
  | ModCacheOpen
  | Diff (e : DiffError)
  | Cancelled
  | CacheSerialization
  | SrfDeserialization
  | Serialization
deriving DecidableEq

/-- `sync::DownloadedSrf`. -/
structure DownloadedSrf where
  mod_name : String
  srf_data : SrfMod
deriving DecidableEq

/-- The Range header value built by `download_srf_part`. -/
def rangeHeaderStr (start stop : Nat) : String :=
  "bytes=" ++ toString start ++ "-" ++ toString stop

/-- `sync::download_srf_part`: GET with an optional Range header, body
read to a string. -/
def download_srf_part (env : Env) (st : St) (url : String)
    (range : Option (Nat × Nat)) : St × Except SyncError String :=
  let hdr := range.map fun r => rangeHeaderStr r.1 r.2
  let st := st.emit (.getHttp url hdr)
  match env.srfBody url hdr with
  | .error _ => (st, .error (.Http url))
  | .ok buf => (st, .ok buf)

/-- `sync::download_full_srf`: fetch the whole `mod.srf`, strip the BOM,
probe for the legacy encoding and deserialise. -/
def download_full_srf (env : Env) (st : St)
    (remote_srf_url _mod_name : String) :
    St × Except SyncError (SrfMod × Bool) :=
  match download_srf_part env st remote_srf_url none with
  | (st, .error e) => (st, .error e)
  | (st, .ok buf) =>
    let bomless := trimBom buf
    match env.parseSrfStr bomless with
    | .error _ => (st, .error .SrfDeserialization)
    | .ok srf => (st, .ok (srf, false))

/-- `sync::download_remote_srf`: when `partial`, fetch the first 256
bytes (`Range: bytes=0-255`), try to extract and validate the checksum,
and on any failure fall back to the full fetch. -/
def download_remote_srf (env : Env) (st : St)
    (repo_url mod_name : String) (part : Bool) :
    St × Except SyncError (SrfMod × Bool) :=
  let remote_srf_url := make_repo_file_url repo_url (mod_name ++ "/mod.srf")
  if part then
    match download_srf_part env st remote_srf_url (some (0, 255)) with
    | (st, .error e) => (st, .error e)
    | (st, .ok buf) =>
      let bomless := trimBom buf
      match extract_checksum bomless with
      | .ok checksum =>
        match md5Digest_new checksum with
        | some digest =>
          (st, .ok ({ name := mod_name, checksum := digest, files := [] }, true))
        | none => download_full_srf env st remote_srf_url mod_name
      | .error _ => download_full_srf env st remote_srf_url mod_name
  else download_full_srf env st remote_srf_url mod_name

/-- `sync::remove_leftover_files`: delete each listed leftover below the
mod directory, warn-and-continue semantics (deletion never aborts). -/
def remove_leftover_files (st : St) (mod_name : String)
    (delete_commands : List DeleteCommand) : St :=
  delete_commands.foldl
    (fun st cmd =>
      let path := mod_name ++ "/" ++ cmd.file
      if st.fs.fileExists path then st.rmFile path else st)
    st

/-- `sync::process_mod_diff`: run the mod-level diff, delete leftovers,
and report the download commands (with the manifest when work exists). -/
def process_mod_diff (env : Env) (st : St) (r_mod : RepoMod)
    (remote_srf : SrfMod) (force_sync : Bool) :
    St × Except DiffError (List DownloadCommand × Option DownloadedSrf) :=
  match diff_mod env st r_mod remote_srf force_sync with
  | (st, .error e) => (st, .error e)
  | (st, .ok (downloads, deletes)) =>
    let st := remove_leftover_files st r_mod.mod_name deletes
    if !downloads.isEmpty then
      (st, .ok (downloads, some ⟨r_mod.mod_name, remote_srf⟩))
    else (st, .ok ([], none))

/-- `sync::save_srf_files`: create each mod directory if needed, then
`File::create` `<name>/mod.srf` and serialise the downloaded manifest. -/
def save_srf_files : List DownloadedSrf → St → St
  | [], st => st
  | d :: rest, st =>
    let p := srfPath d.mod_name
    let st := st.mkdirAll d.mod_name
    let st := st.emit (.saveSrf p d.srf_data)
    let st := { st with fs := st.fs.write p (.srfCur d.srf_data) }
    save_srf_files rest st

/-- `sync::execute_command_list` (the sequential loop of `sync.rs`,
lines 137–214): per command, check the cancellation flag, then run the
per-task download-and-place procedure; the first failure aborts. -/
def execute_command_list (env : Env) (remote_base : String) :
    List DownloadCommand → St → St × Except SyncError Unit
  | [], st => (st, .ok ())
  | command :: rest, st =>
    if env.cancel st.clock then (st.tick, .error .Cancelled)
    else
      let st := st.tick
      match download_task env st remote_base command with
      | (st, .error .Cancelled) => (st, .error .Cancelled)
      | (st, .error (.Http url)) => (st, .error (.Http url))
      | (st, .error .Io) => (st, .error .Io)
      | (st, .ok ()) => execute_command_list env remote_base rest st

/-- The upfront partial-SRF stage of `sync_with_context`
(lines 479–484). -/
def download_partial_srfs (env : Env) (repo_url : String) :
    List RepoMod → List (RepoMod × SrfMod × Bool) → St →
    St × Except SyncError (List (RepoMod × SrfMod × Bool))
  | [], acc, st => (st, .ok acc)
  | m :: rest, acc, st =>
    match download_remote_srf env st repo_url m.mod_name true with
    | (st, .error e) => (st, .error e)
    | (st, .ok (srf, part)) =>
      download_partial_srfs env repo_url rest (acc ++ [(m, srf, part)]) st

/-- The per-mod loop of `sync_with_context` (lines 491–524): quick-diff
gate, full-manifest fetch, mod-level diff, and accumulation of download
commands and downloaded manifests. -/
def sync_mod_loop (env : Env) (repo_url : String) (force_sync : Bool) :
    List (RepoMod × SrfMod × Bool) →
    List DownloadCommand × List DownloadedSrf → St →
    St × Except SyncError (List DownloadCommand × List DownloadedSrf)
  | [], acc, st => (st, .ok acc)
  | (r_mod, srf, part) :: rest, acc, st =>
    let quick : Except SyncError QuickDiffResult :=
      if !force_sync && part then
        match quick_diff st.fs r_mod srf with
        | .error e => .error (.Diff e)
        | .ok r => .ok r
      else .ok (if force_sync then .NeedsFull else .UpToDate)
    match quick with
    | .error e => (st, .error e)
    | .ok .UpToDate =>
      -- either quick_diff said UpToDate, or `needs_full_diff` stayed
      -- false (not forced, no partial manifest): the mod is skipped
      sync_mod_loop env repo_url force_sync rest acc st
    | .ok .NeedsFull =>
      match download_remote_srf env st repo_url r_mod.mod_name false with
      | (st, .error e) => (st, .error e)
      | (st, .ok (full_srf, _)) =>
        match process_mod_diff env st r_mod full_srf force_sync with
        | (st, .error e) => (st, .error (.Diff e))
        | (st, .ok (downloads, _)) =>
          let acc :=
            if !downloads.isEmpty then
              (acc.1 ++ downloads, acc.2 ++ [⟨r_mod.mod_name, full_srf⟩])
            else acc
          sync_mod_loop env repo_url force_sync rest acc st

/-- `repository::make_repo_json_url`. -/
def make_repo_json_url (base_url : String) : String :=
  make_repo_file_url base_url "repo.json"

/-- The force-sync prelude of `sync_with_context` (lines 444–453):
delete the cache file if it exists. -/
def sync_force_step (force_sync : Bool) (st : St) : St :=
  if force_sync && st.fs.fileExists cacheFileName then
    st.rmFile cacheFileName
  else st

/-- The tail of `sync_with_context` from the partial-SRF stage on
(lines 478–567): probe, per-mod loop, dry-run early exit, downloads,
SRF saves and the final cache commit. -/
def sync_stage2 (env : Env) (repo_url : String)
    (dry_run force_sync : Bool) (remote_repo : Repository)
    (mod_cache : ModCache) (st : St) : St × Except SyncError Unit :=
  match download_partial_srfs env repo_url remote_repo.required_mods [] st with
  | (st, .error e) => (st, .error e)
  | (st, .ok partial_srfs) =>
    match sync_mod_loop env repo_url force_sync partial_srfs ([], []) st with
    | (st, .error e) => (st, .error e)
    | (st, .ok (download_commands, downloaded_srfs)) =>
      if dry_run then (st, .ok ())
      else
        match execute_command_list env repo_url download_commands st with
        | (st, .ok ()) =>
          let st := save_srf_files downloaded_srfs st
          let mod_cache :=
            { mod_cache with
              repository := some remote_repo,
              last_sync := some env.now }
          let st := mod_cache.to_disk st
          (st, .ok ())
        | (st, .error e) => (st, .error e)

/-- `sync::sync_with_context`. -/
def sync_with_context (env : Env) (repo_url : String)
    (dry_run force_sync : Bool) (st : St) : St × Except SyncError Unit :=
  -- if force sync, delete the cache file first
  let st := sync_force_step force_sync st
  -- status message, then check_cancelled
  if env.cancel st.clock then (st.tick, .error .Cancelled)
  else
    let st := st.tick
    let st := st.emit (.getHttp (make_repo_json_url repo_url) none)
    match env.repoResp with
    | .error _ => (st, .error .RepositoryFetch)
    | .ok remote_repo =>
      if env.cancel st.clock then (st.tick, .error .Cancelled)
      else
        let st := st.tick
        match ModCache.from_disk_or_empty st.fs with
        | .error _ => (st, .error .ModCacheOpen)
        | .ok mod_cache =>
          sync_stage2 env repo_url dry_run force_sync remote_repo mod_cache st

/-! ## Theorems

### C8 — checksum extraction from a partial manifest body -/

/-- Specification-side description of what the pattern loop locates: for
one pattern, the text between the end of its first occurrence and the
next quote, when both exist. -/
def valueAfter (json pat : String) : Option String :=
  (findSub json.data pat.data).bind fun start_pos =>
    let rest := json.data.drop (start_pos + pat.length)
    (findSub rest ['\"']).map fun end_quote => (⟨rest.take end_quote⟩ : String)

/-- Specification-side description of the value the loop settles on: the
first of the four exact patterns that locates a quoted value. -/
def locatedChecksum (json : String) : Option String :=
  (checksum_patterns.filterMap (valueAfter json)).head?

instance {ε α : Type} [DecidableEq ε] [DecidableEq α] :
    DecidableEq (Except ε α) := fun x y =>
  match x, y with
  | .error a, .error b => decidable_of_iff (a = b) (by simp)
  | .ok a, .ok b => decidable_of_iff (a = b) (by simp)
  | .error _, .ok _ => isFalse (by simp)
  | .ok _, .error _ => isFalse (by simp)

theorem tryPattern_eq_valueAfter (json pat : String) :
    tryPattern json pat = (valueAfter json pat).map validateChecksum := by
  unfold tryPattern valueAfter
  cases findSub json.data pat.data with
  | none => rfl
  | some start_pos =>
    simp only [Option.some_bind]
    cases findSub (json.data.drop (start_pos + pat.length)) ['\"'] with
    | none => rfl
    | some end_quote => rfl

theorem patternLoop_eq_locate (json : String) (pats : List String) :
    patternLoop json pats =
      ((pats.filterMap (valueAfter json)).head?).map validateChecksum := by
  induction pats with
  | nil => rfl
  | cons p ps ih =>
    unfold patternLoop
    rw [tryPattern_eq_valueAfter]
    cases h : valueAfter json p with
    | none => simp [List.filterMap_cons, h, ih]
    | some v => simp [List.filterMap_cons, h]

theorem all_hex_not_mem (c : Char) (hc : isAsciiHexDigit c = false)
    (l : List Char) (h : l.all isAsciiHexDigit = true) : c ∉ l := by
  intro hmem
  rw [List.all_eq_true] at h
  have hcp := h c hmem
  rw [hc] at hcp
  exact Bool.noConfusion hcp

theorem validateChecksum_eq (v : String) :
    validateChecksum v =
      if v.length = 32 then
        if v.data.all isAsciiHexDigit then .ok v else .error .NonHexCharacters
      else .error (.InvalidLength v.length) := by
  unfold validateChecksum
  by_cases hlen : v.length = 32
  · simp only [hlen, if_true, ite_not, if_neg (by simp : ¬ (32 : Nat) ≠ 32)]
    by_cases hhex : v.data.all isAsciiHexDigit = true
    · have h1 := all_hex_not_mem lbrace (by decide) v.data hhex
      have h2 := all_hex_not_mem rbrace (by decide) v.data hhex
      have h3 := all_hex_not_mem '[' (by decide) v.data hhex
      have h4 := all_hex_not_mem ']' (by decide) v.data hhex
      simp [hhex, h1, h2, h3, h4]
    · simp [hhex]
  · simp [hlen]

/-- C8 (amended): for every input string, if it does not start with a
left brace, extraction fails with `NoJsonStart`; otherwise the checksum
field is located by searching, in order, for the four exact patterns
`"Checksum":"`, `"checksum":"`, `"Checksum": "`, `"checksum": "` (only
the first letter varies in case — the search is not fully
case-insensitive), and the quoted value is returned exactly when it is
32 ASCII hex characters, failing with `InvalidLength` when the length
differs, `NonHexCharacters` when a non-hex character occurs, and
`NoChecksumField` when no pattern locates a quoted value. -/
theorem C8_extract_checksum_amended (json : String) :
    (startsWithBrace json = false →
      extract_checksum json = .error .NoJsonStart) ∧
    (startsWithBrace json = true →
      extract_checksum json =
        match locatedChecksum json with
        | none => .error .NoChecksumField
        | some v =>
          if v.length = 32 then
            if v.data.all isAsciiHexDigit then .ok v
            else .error .NonHexCharacters
          else .error (.InvalidLength v.length)) := by
  constructor
  · intro h
    unfold extract_checksum
    rw [h]
    rfl
  · intro h
    unfold extract_checksum
    rw [h]
    simp only [Bool.not_true, Bool.false_eq_true, if_false]
    rw [patternLoop_eq_locate]
    unfold locatedChecksum
    cases (checksum_patterns.filterMap (valueAfter json)).head? with
    | none => rfl
    | some v => simp [validateChecksum_eq]

/-- Witness for C8: the amended theorem evaluated at concrete inputs. -/
theorem C8_extract_checksum_amended_witness :
    extract_checksum
        "\x7b\"Checksum\": \"00112233445566778899aabbccddeeff\"\x7d" =
      .ok "00112233445566778899aabbccddeeff" ∧
    extract_checksum "nope" = .error .NoJsonStart := by
  constructor
  · have h :=
      (C8_extract_checksum_amended
        "\x7b\"Checksum\": \"00112233445566778899aabbccddeeff\"\x7d").2
        (by decide)
    rw [h]
    decide
  · exact (C8_extract_checksum_amended "nope").1 (by decide)

/-- Counterexample to C8 as stated: the field search is not
case-insensitive.  On a JSON object whose key is `CHECKSUM` with a valid
32-hex value — found by a genuinely case-insensitive search, as the
lowercased-input probe below shows — extraction reports
`NoChecksumField` instead of returning the value. -/
theorem C8_extract_checksum_counterexample :
    extract_checksum
        "\x7b\"CHECKSUM\":\"0123456789abcdef0123456789abcdef\"\x7d" =
      .error .NoChecksumField ∧
    (findSub
        (lowerChars
          "\x7b\"CHECKSUM\":\"0123456789abcdef0123456789abcdef\"\x7d".data)
        "\"checksum\":\"".data).isSome = true ∧
    "0123456789abcdef0123456789abcdef".length = 32 ∧
    "0123456789abcdef0123456789abcdef".data.all isAsciiHexDigit = true := by
  decide

/-! ### Association-list lemmas -/

theorem lookupA_insertA_self {α : Type} (l : List (String × α)) (k : String)
    (v : α) : lookupA (insertA l k v) k = some v := by
  induction l with
  | nil => simp [insertA, lookupA]
  | cons h t ih =>
    by_cases he : h.1 = k
    · simp [insertA, he, lookupA]
    · simp [insertA, he, lookupA, ih]

theorem lookupA_insertA_ne {α : Type} (l : List (String × α)) (k k' : String)
    (v : α) (h : k ≠ k') : lookupA (insertA l k v) k' = lookupA l k' := by
  induction l with
  | nil => simp [insertA, lookupA, h]
  | cons hd t ih =>
    by_cases he : hd.1 = k
    · simp [insertA, he, lookupA, h]
    · simp only [insertA, he, if_false, lookupA]
      by_cases he' : hd.1 = k'
      · simp [he']
      · simp [he', ih]

theorem lookupA_removeA_ne {α : Type} (l : List (String × α)) (k k' : String)
    (h : k ≠ k') : lookupA (removeA l k) k' = lookupA l k' := by
  induction l with
  | nil => simp [removeA, lookupA]
  | cons hd t ih =>
    by_cases he : hd.1 = k
    · simp [removeA, he, lookupA, h]
    · simp only [removeA, he, if_false, lookupA]
      by_cases he' : hd.1 = k'
      · simp [he']
      · simp [he', ih]

/-! ### C3 — quick_diff -/

/-- C3: for every filesystem, remote mod and remote manifest,
`quick_diff` returns `NeedsFull` when `<base>/<mod_name>/mod.srf` does
not exist; otherwise it parses the local manifest (current or legacy
encoding) and returns `UpToDate` exactly when the parsed local
aggregate digest equals the remote manifest's digest, and `NeedsFull`
when they differ. -/
theorem C3_quick_diff (fs : FS) (remote_mod : RepoMod)
    (remote_srf : SrfMod) :
    (fs.lookup (srfPath remote_mod.mod_name) = none →
      quick_diff fs remote_mod remote_srf = .ok .NeedsFull) ∧
    (∀ m, fs.lookup (srfPath remote_mod.mod_name) = some (.srfCur m) →
      quick_diff fs remote_mod remote_srf =
        .ok (if m.checksum = remote_srf.checksum
             then .UpToDate else .NeedsFull)) ∧
    (∀ m, fs.lookup (srfPath remote_mod.mod_name) = some (.srfLegacy m) →
      quick_diff fs remote_mod remote_srf =
        .ok (if m.checksum = remote_srf.checksum
             then .UpToDate else .NeedsFull)) := by
  refine ⟨fun h => ?_, fun m h => ?_, fun m h => ?_⟩ <;>
    · unfold quick_diff
      rw [h]
      try simp only [readLocalSrf]
      try split <;> rfl

/-- Witness for C3 at concrete filesystems: manifest absent, a current
manifest with a matching digest, and a legacy manifest with a differing
digest. -/
theorem C3_quick_diff_witness :
    quick_diff ⟨[], []⟩ ⟨"@a", "d", true⟩ ⟨"@a", "aa", []⟩ =
      .ok .NeedsFull ∧
    quick_diff ⟨[("@a/mod.srf", .srfCur ⟨"@a", "aa", []⟩)], ["@a"]⟩
        ⟨"@a", "d", true⟩ ⟨"@a", "aa", []⟩ = .ok .UpToDate ∧
    quick_diff ⟨[("@a/mod.srf", .srfLegacy ⟨"@a", "bb", []⟩)], ["@a"]⟩
        ⟨"@a", "d", true⟩ ⟨"@a", "aa", []⟩ = .ok .NeedsFull := by
  refine ⟨(C3_quick_diff _ _ _).1 (by decide), ?_, ?_⟩
  · have h := (C3_quick_diff
      ⟨[("@a/mod.srf", .srfCur ⟨"@a", "aa", []⟩)], ["@a"]⟩
      ⟨"@a", "d", true⟩ ⟨"@a", "aa", []⟩).2.1 ⟨"@a", "aa", []⟩ (by decide)
    rw [h]
    decide
  · have h := (C3_quick_diff
      ⟨[("@a/mod.srf", .srfLegacy ⟨"@a", "bb", []⟩)], ["@a"]⟩
      ⟨"@a", "d", true⟩ ⟨"@a", "aa", []⟩).2.2 ⟨"@a", "bb", []⟩ (by decide)
    rw [h]
    decide

/-! ### C7 — batch failure aggregation -/

/-- C7: per-task failures are collected from the settled results; the
batch succeeds when no failure was collected, returns `Cancelled` when
any collected failure is a cancellation, and otherwise returns the
first collected (necessarily non-cancellation) error. -/
theorem C7_batch_outcome (results : List (Except DlError Unit)) :
    (collect_errors results = [] → batch_outcome results = .ok ()) ∧
    ((collect_errors results).any (fun e => e = .Cancelled) = true →
      batch_outcome results = .error .Cancelled) ∧
    (∀ e es, collect_errors results = e :: es →
      (e :: es).any (fun x => x = .Cancelled) = false →
      batch_outcome results = .error e) := by
  refine ⟨fun h => ?_, fun h => ?_, fun e es h hnc => ?_⟩
  · simp [batch_outcome, h, handle_errors]
  · unfold batch_outcome handle_errors
    rcases hc : collect_errors results with _ | ⟨e, es⟩
    · rw [hc] at h
      exact absurd h (by simp)
    · rw [hc] at h
      simp [h]
  · unfold batch_outcome handle_errors
    rw [h]
    simp [hnc]

/-- Witness for C7: an all-success batch, a batch containing a
cancellation, and a batch whose first failure is a transport error. -/
theorem C7_batch_outcome_witness :
    batch_outcome [.ok (), .ok ()] = .ok () ∧
    batch_outcome [.ok (), .error (.Http "u"), .error .Cancelled] =
      .error .Cancelled ∧
    batch_outcome [.ok (), .error (.Http "u"), .error (.Http "v")] =
      .error (.Http "u") := by
  refine ⟨(C7_batch_outcome _).1 (by decide),
    (C7_batch_outcome _).2.1 (by decide),
    (C7_batch_outcome [.ok (), .error (.Http "u"), .error (.Http "v")]).2.2
      (.Http "u") [.Http "v"] (by decide) (by decide)⟩

/-! ### C6 — cache persistence -/

/-- C6 (amended): `ModCache::to_disk` does not stage through a
temporary file: it opens `<base>/nimble-cache.json` itself with
`File::create` — truncating whatever was there — and serialises
directly into it, so the write is in place and not atomic; no temporary
file is created and no rename is performed. -/
theorem C6_to_disk_amended (c : ModCache) (st : St) :
    (ModCache.to_disk c st).trace =
      st.trace ++ [.createTruncate cacheFileName, .writeCache cacheFileName c] ∧
    (ModCache.to_disk c st).fs.lookup cacheFileName = some (.cacheF c) ∧
    (st.trace = [] →
      ∀ p, Ev.renameTempTo p ∉ (ModCache.to_disk c st).trace) ∧
    (st.trace = [] →
      ∀ loc, Ev.createTemp loc ∉ (ModCache.to_disk c st).trace) := by
  refine ⟨?_, ?_, ?_, ?_⟩
  · simp [ModCache.to_disk, St.emit]
  · simp [ModCache.to_disk, St.emit, FS.lookup, FS.write, lookupA_insertA_self]
  · intro h p
    simp [ModCache.to_disk, St.emit, h]
  · intro h loc
    simp [ModCache.to_disk, St.emit, h]

/-- Witness for C6 (amended) at a concrete cache and state. -/
theorem C6_to_disk_amended_witness :
    (ModCache.to_disk ModCache.new_empty ⟨⟨[], []⟩, [], 0⟩).trace =
      [.createTruncate cacheFileName,
       .writeCache cacheFileName ModCache.new_empty] ∧
    Ev.renameTempTo cacheFileName ∉
      (ModCache.to_disk ModCache.new_empty ⟨⟨[], []⟩, [], 0⟩).trace := by
  constructor
  · exact (C6_to_disk_amended ModCache.new_empty ⟨⟨[], []⟩, [], 0⟩).1
  · exact (C6_to_disk_amended ModCache.new_empty ⟨⟨[], []⟩, [], 0⟩).2.2.1
      rfl cacheFileName

/-- Counterexample to C6 as stated: saving the cache is claimed to
serialise to a temporary file and rename it over
`<base>/nimble-cache.json`; on a concrete state whose cache file holds
previous contents, the emitted actions are exactly a truncating
`File::create` of the final path followed by the direct write — there
is no rename event and no temporary file. -/
theorem C6_to_disk_counterexample :
    (ModCache.to_disk ModCache.new_empty
        ⟨⟨[(cacheFileName, .cacheF ⟨1, [("d", ⟨"@old"⟩)], none, none, none⟩)], []⟩,
         [], 0⟩).trace =
      [.createTruncate cacheFileName,
       .writeCache cacheFileName ModCache.new_empty] ∧
    (Ev.renameTempTo cacheFileName ∉
      (ModCache.to_disk ModCache.new_empty
        ⟨⟨[(cacheFileName, .cacheF ⟨1, [("d", ⟨"@old"⟩)], none, none, none⟩)], []⟩,
         [], 0⟩).trace) ∧
    (Ev.createTemp (.inDir "") ∉
      (ModCache.to_disk ModCache.new_empty
        ⟨⟨[(cacheFileName, .cacheF ⟨1, [("d", ⟨"@old"⟩)], none, none, none⟩)], []⟩,
         [], 0⟩).trace) := by
  decide

/-! ### Download-task characterisation (C5, C10) -/

theorem insertA_insertA {α : Type} (l : List (String × α)) (k : String)
    (a b : α) : insertA (insertA l k a) k b = insertA l k b := by
  induction l with
  | nil => simp [insertA]
  | cons hd t ih =>
    by_cases he : hd.1 = k
    · simp [insertA, he]
    · simp [insertA, he, ih]

theorem FS.write_write (fs : FS) (p : String) (a b : FileData) :
    (fs.write p a).write p b = fs.write p b := by
  simp [FS.write, insertA_insertA]

theorem FS.lookup_write_self (fs : FS) (p : String) (d : FileData) :
    (fs.write p d).lookup p = some d := by
  simp [FS.write, FS.lookup, lookupA_insertA_self]

theorem FS.lookup_write_ne (fs : FS) (p p' : String) (d : FileData)
    (h : p ≠ p') : (fs.write p d).lookup p' = fs.lookup p' := by
  simp [FS.write, FS.lookup, lookupA_insertA_ne _ _ _ _ h]

theorem FS.lookup_remove_ne (fs : FS) (p p' : String) (h : p ≠ p') :
    (fs.remove p).lookup p' = fs.lookup p' := by
  simp [FS.remove, FS.lookup, lookupA_removeA_ne _ _ _ h]

theorem FS.lookup_mkdir (fs : FS) (d : String) (p : String) :
    (fs.mkdir d).lookup p = fs.lookup p := rfl

/-- The chunks the download loop consumes before stopping: everything
up to the first read error or zero-length read. -/
def goodBytes : List ReadRes → List (List Nat)
  | [] => []
  | .readErr :: _ => []
  | .chunk [] :: _ => []
  | .chunk (b :: bs) :: rest => (b :: bs) :: goodBytes rest

theorem dlLoop_no_cancel (env : Env) (hc : ∀ n, env.cancel n = false)
    (total : Nat) (chunks : List ReadRes) :
    ∀ (acc : List Nat) (st : St),
    dlLoop env total chunks acc st =
      ({ st with
         clock := st.clock + (goodBytes chunks).length,
         trace := st.trace ++
           (goodBytes chunks).map fun bs => Ev.writeTempChunk bs.length },
       .ok (total, acc ++ (goodBytes chunks).join)) := by
  induction chunks with
  | nil => intro acc st; simp [dlLoop, goodBytes]
  | cons c rest ih =>
    intro acc st
    match c with
    | .readErr => simp [dlLoop, goodBytes]
    | .chunk [] => simp [dlLoop, goodBytes]
    | .chunk (b :: bs) =>
      show (if env.cancel st.clock = true then _ else _) = _
      rw [hc st.clock]
      simp only [Bool.false_eq_true, if_false]
      rw [ih]
      simp [St.tick, St.emit, goodBytes, List.append_assoc,
        Nat.add_assoc, Nat.add_comm 1]

theorem download_file_no_cancel (env : Env)
    (hc : ∀ n, env.cancel n = false) (st : St) (url : String)
    (rdr : Reader) (hr : env.blob url = .ok rdr) :
    download_file env st url =
      ({ st with
         clock := st.clock + (goodBytes rdr.chunks).length,
         trace := (st.trace ++ [.getHttp url none]) ++
           (goodBytes rdr.chunks).map fun bs => Ev.writeTempChunk bs.length },
       .ok (rdr.contentLength, (goodBytes rdr.chunks).join)) := by
  dsimp only [download_file]
  rw [hr]
  show dlLoop env rdr.contentLength rdr.chunks []
    (st.emit (Ev.getHttp url none)) = _
  rw [dlLoop_no_cancel env hc]
  simp [St.emit]

theorem download_task_no_cancel (env : Env)
    (hc : ∀ n, env.cancel n = false) (st : St) (remote_base : String)
    (command : DownloadCommand) (rdr : Reader)
    (hr : env.blob (make_repo_file_url remote_base command.file) = .ok rdr) :
    download_task env st remote_base command =
      ({ fs := (st.fs.mkdir (parentDir command.file)).write command.file
           (.blob (goodBytes rdr.chunks).join),
         trace := st.trace ++
           ([.createTemp .systemTmp,
             .getHttp (make_repo_file_url remote_base command.file) none] ++
            ((goodBytes rdr.chunks).map fun bs => Ev.writeTempChunk bs.length) ++
            [.createDir (parentDir command.file), .createDest command.file,
             .copyTempToDest command.file]),
         clock := st.clock + (goodBytes rdr.chunks).length },
       .ok ()) := by
  dsimp only [download_task]
  rw [download_file_no_cancel env hc (st.emit (Ev.createTemp .systemTmp))
    (make_repo_file_url remote_base command.file) rdr hr]
  simp [St.emit, St.mkdirAll, FS.write_write, List.append_assoc]

/-- C5 (amended): for every download task whose GET succeeds (and with
the cancellation flag never set), the fetched bytes are first written
to a temporary file opened with `tempfile()` in the system temporary
directory (not necessarily on the destination's filesystem); only after
the read loop has finished is the destination's parent directory
created, the destination `File::create`d and the temporary contents
copied into it — a copy, not an atomic rename.  The destination is not
created or truncated before the read loop ends. -/
theorem C5_placement_amended (env : Env) (st : St) (remote_base : String)
    (command : DownloadCommand) (rdr : Reader)
    (hc : ∀ n, env.cancel n = false)
    (hr : env.blob (make_repo_file_url remote_base command.file) = .ok rdr)
    (htr : st.trace = []) :
    (download_task env st remote_base command).2 = .ok () ∧
    (download_task env st remote_base command).1.trace =
      [.createTemp .systemTmp,
       .getHttp (make_repo_file_url remote_base command.file) none] ++
      ((goodBytes rdr.chunks).map fun bs => Ev.writeTempChunk bs.length) ++
      [.createDir (parentDir command.file), .createDest command.file,
       .copyTempToDest command.file] ∧
    (∀ p, Ev.renameTempTo p ∉ (download_task env st remote_base command).1.trace) ∧
    (download_task env st remote_base command).1.fs.lookup command.file =
      some (.blob (goodBytes rdr.chunks).join) := by
  rw [download_task_no_cancel env hc st remote_base command rdr hr]
  refine ⟨rfl, by simp [htr], ?_, ?_⟩
  · intro p
    simp [htr]
  · exact FS.lookup_write_self _ _ _

/-- Witness for C5 (amended): a concrete task against a two-chunk
response; the trace and the placed bytes computed explicitly. -/
theorem C5_placement_amended_witness :
    (download_task
        ⟨fun _ _ => "a", fun _ => "m", .error (), fun _ _ => .error (),
         fun _ => .error (), fun _ => .ok ⟨3, [.chunk [1, 2], .chunk [3]]⟩,
         fun _ => false, 0⟩
        ⟨⟨[], []⟩, [], 0⟩ "r" ⟨"@a/x.bin", 0, 3⟩).1.fs.lookup "@a/x.bin" =
      some (.blob [1, 2, 3]) := by
  have h := C5_placement_amended
    ⟨fun _ _ => "a", fun _ => "m", .error (), fun _ _ => .error (),
     fun _ => .error (), fun _ => .ok ⟨3, [.chunk [1, 2], .chunk [3]]⟩,
     fun _ => false, 0⟩
    ⟨⟨[], []⟩, [], 0⟩ "r" ⟨"@a/x.bin", 0, 3⟩ ⟨3, [.chunk [1, 2], .chunk [3]]⟩
    (fun _ => rfl) rfl rfl
  rw [h.2.2.2]
  decide

/-- Counterexample to C5 as stated: on a concrete successful task the
temporary file is opened in the system temporary directory (not in the
destination's directory) and the trace contains no rename event at all
— placement is `File::create` plus a copy. -/
theorem C5_placement_counterexample :
    (download_task
        ⟨fun _ _ => "a", fun _ => "m", .error (), fun _ _ => .error (),
         fun _ => .error (), fun _ => .ok ⟨2, [.chunk [7, 8]]⟩,
         fun _ => false, 0⟩
        ⟨⟨[], []⟩, [], 0⟩ "r" ⟨"@a/x.bin", 0, 2⟩).1.trace =
      [.createTemp .systemTmp, .getHttp "r/@a/x.bin" none,
       .writeTempChunk 2, .createDir "@a", .createDest "@a/x.bin",
       .copyTempToDest "@a/x.bin"] ∧
    Ev.renameTempTo "@a/x.bin" ∉
      (download_task
        ⟨fun _ _ => "a", fun _ => "m", .error (), fun _ _ => .error (),
         fun _ => .error (), fun _ => .ok ⟨2, [.chunk [7, 8]]⟩,
         fun _ => false, 0⟩
        ⟨⟨[], []⟩, [], 0⟩ "r" ⟨"@a/x.bin", 0, 2⟩).1.trace ∧
    Ev.createTemp (.inDir "@a") ∉
      (download_task
        ⟨fun _ _ => "a", fun _ => "m", .error (), fun _ _ => .error (),
         fun _ => .error (), fun _ => .ok ⟨2, [.chunk [7, 8]]⟩,
         fun _ => false, 0⟩
        ⟨⟨[], []⟩, [], 0⟩ "r" ⟨"@a/x.bin", 0, 2⟩).1.trace := by
  decide

/-! ### C10 — read errors silently truncate -/

theorem goodBytes_truncated (pre : List (List Nat))
    (hpre : ∀ bs ∈ pre, bs ≠ []) (rest : List ReadRes) :
    goodBytes (pre.map ReadRes.chunk ++ .readErr :: rest) = pre := by
  induction pre with
  | nil => simp [goodBytes]
  | cons b t ih =>
    cases b with
    | nil => exact absurd rfl (hpre [] (by simp))
    | cons x xs =>
      simp only [List.map_cons, List.cons_append, goodBytes, List.append_eq]
      rw [ih fun bs h => hpre bs (by simp [h])]

/-- C10: for every download task whose HTTP GET succeeds, if reading
the response body fails partway through, the read loop stops and
`download_file` returns success with the bytes received so far; the
task then places the truncated content at the destination and counts
as a completed download instead of reporting a transport failure. -/
theorem C10_truncated_read_success (env : Env) (st : St)
    (remote_base : String) (command : DownloadCommand)
    (pre : List (List Nat)) (rest : List ReadRes) (len : Nat)
    (hc : ∀ n, env.cancel n = false)
    (hr : env.blob (make_repo_file_url remote_base command.file) =
      .ok ⟨len, pre.map ReadRes.chunk ++ .readErr :: rest⟩)
    (hpre : ∀ bs ∈ pre, bs ≠ []) :
    (download_file env st (make_repo_file_url remote_base command.file)).2 =
      .ok (len, pre.join) ∧
    (download_task env st remote_base command).2 = .ok () ∧
    (download_task env st remote_base command).1.fs.lookup command.file =
      some (.blob pre.join) := by
  have hg := goodBytes_truncated pre hpre rest
  have hdf := download_file_no_cancel env hc st
    (make_repo_file_url remote_base command.file) _ hr
  have hdt := download_task_no_cancel env hc st remote_base command _ hr
  refine ⟨?_, ?_, ?_⟩
  · rw [hdf]; simp [hg]
  · rw [hdt]
  · rw [hdt]
    simp only [hg]
    exact FS.lookup_write_self _ _ _

/-- Witness for C10: a GET whose body errors after one chunk; the task
succeeds and the destination holds only the first chunk. -/
theorem C10_truncated_read_success_witness :
    (download_task
        ⟨fun _ _ => "a", fun _ => "m", .error (), fun _ _ => .error (),
         fun _ => .error (),
         fun _ => .ok ⟨9, [.chunk [1], .readErr, .chunk [9]]⟩,
         fun _ => false, 0⟩
        ⟨⟨[], []⟩, [], 0⟩ "r" ⟨"@a/x.bin", 0, 9⟩).2 = .ok () ∧
    (download_task
        ⟨fun _ _ => "a", fun _ => "m", .error (), fun _ _ => .error (),
         fun _ => .error (),
         fun _ => .ok ⟨9, [.chunk [1], .readErr, .chunk [9]]⟩,
         fun _ => false, 0⟩
        ⟨⟨[], []⟩, [], 0⟩ "r" ⟨"@a/x.bin", 0, 9⟩).1.fs.lookup "@a/x.bin" =
      some (.blob [1]) := by
  have h := C10_truncated_read_success
    ⟨fun _ _ => "a", fun _ => "m", .error (), fun _ _ => .error (),
     fun _ => .error (),
     fun _ => .ok ⟨9, [.chunk [1], .readErr, .chunk [9]]⟩,
     fun _ => false, 0⟩
    ⟨⟨[], []⟩, [], 0⟩ "r" ⟨"@a/x.bin", 0, 9⟩ [[1]] [.chunk [9]] 9
    (fun _ => rfl) rfl (by decide)
  exact ⟨h.2.1, by rw [h.2.2]; rfl⟩

/-! ### C4 — the partial-manifest probe -/

theorem download_srf_part_eq (env : Env) (st : St) (url : String)
    (range : Option (Nat × Nat)) :
    download_srf_part env st url range =
      (st.emit (.getHttp url (range.map fun r => rangeHeaderStr r.1 r.2)),
       match env.srfBody url (range.map fun r => rangeHeaderStr r.1 r.2) with
       | .error _ => .error (.Http url)
       | .ok buf => .ok buf) := by
  dsimp only [download_srf_part]
  cases env.srfBody url (range.map fun r => rangeHeaderStr r.1 r.2) <;> rfl

theorem download_full_srf_eq (env : Env) (st : St) (url name : String) :
    download_full_srf env st url name =
      (st.emit (.getHttp url none),
       match env.srfBody url none with
       | .error _ => .error (.Http url)
       | .ok buf =>
         match env.parseSrfStr (trimBom buf) with
         | .error _ => .error .SrfDeserialization
         | .ok srf => .ok (srf, false)) := by
  dsimp only [download_full_srf]
  rw [download_srf_part_eq]
  dsimp only [Option.map]
  cases env.srfBody url none with
  | error e => rfl
  | ok buf =>
    dsimp only
    cases env.parseSrfStr (trimBom buf) <;> rfl

theorem download_remote_srf_partial_eq (env : Env) (st : St)
    (repo_url mod_name : String) :
    download_remote_srf env st repo_url mod_name true =
      (match env.srfBody (make_repo_file_url repo_url (mod_name ++ "/mod.srf"))
           (some (rangeHeaderStr 0 255)) with
       | .error _ =>
         (st.emit (.getHttp (make_repo_file_url repo_url (mod_name ++ "/mod.srf"))
            (some (rangeHeaderStr 0 255))),
          .error (.Http (make_repo_file_url repo_url (mod_name ++ "/mod.srf"))))
       | .ok buf =>
         match extract_checksum (trimBom buf) with
         | .ok checksum =>
           match md5Digest_new checksum with
           | some digest =>
             (st.emit (.getHttp
                (make_repo_file_url repo_url (mod_name ++ "/mod.srf"))
                (some (rangeHeaderStr 0 255))),
              .ok ({ name := mod_name, checksum := digest, files := [] }, true))
           | none =>
             download_full_srf env
               (st.emit (.getHttp
                 (make_repo_file_url repo_url (mod_name ++ "/mod.srf"))
                 (some (rangeHeaderStr 0 255))))
               (make_repo_file_url repo_url (mod_name ++ "/mod.srf")) mod_name
         | .error _ =>
           download_full_srf env
             (st.emit (.getHttp
               (make_repo_file_url repo_url (mod_name ++ "/mod.srf"))
               (some (rangeHeaderStr 0 255))))
             (make_repo_file_url repo_url (mod_name ++ "/mod.srf")) mod_name) := by
  dsimp only [download_remote_srf]
  rw [download_srf_part_eq]
  dsimp only [Option.map]
  cases env.srfBody (make_repo_file_url repo_url (mod_name ++ "/mod.srf"))
      (some (rangeHeaderStr 0 255)) with
  | error e => rfl
  | ok buf =>
    dsimp only
    cases extract_checksum (trimBom buf) with
    | error e => rfl
    | ok checksum => cases md5Digest_new checksum <;> rfl

/-- C4 (amended): for every required mod, the partial-manifest probe
issued during sync requests the first 256 bytes of the remote `mod.srf`
(HTTP `Range: bytes=0-255`, not 512 bytes/`bytes=0-511`), and whenever
digest extraction from the partial body fails, the function falls back
to fetching the full manifest instead of failing the mod. -/
theorem C4_partial_probe_amended (env : Env) (st : St)
    (repo_url mod_name : String) :
    (∃ rest : List Ev,
      (download_remote_srf env st repo_url mod_name true).1.trace =
        st.trace ++
          Ev.getHttp (make_repo_file_url repo_url (mod_name ++ "/mod.srf"))
            (some (rangeHeaderStr 0 255)) :: rest) ∧
    rangeHeaderStr 0 255 = "bytes=0-255" ∧
    (∀ buf e,
      env.srfBody (make_repo_file_url repo_url (mod_name ++ "/mod.srf"))
          (some (rangeHeaderStr 0 255)) = .ok buf →
      extract_checksum (trimBom buf) = .error e →
      download_remote_srf env st repo_url mod_name true =
        download_full_srf env
          (st.emit (.getHttp
            (make_repo_file_url repo_url (mod_name ++ "/mod.srf"))
            (some (rangeHeaderStr 0 255))))
          (make_repo_file_url repo_url (mod_name ++ "/mod.srf")) mod_name) := by
  refine ⟨?_, by decide, ?_⟩
  · rw [download_remote_srf_partial_eq]
    cases henv : env.srfBody (make_repo_file_url repo_url (mod_name ++ "/mod.srf"))
        (some (rangeHeaderStr 0 255)) with
    | error e => exact ⟨[], by simp [St.emit]⟩
    | ok buf =>
      dsimp only
      cases hext : extract_checksum (trimBom buf) with
      | ok checksum =>
        dsimp only
        cases hmd : md5Digest_new checksum with
        | some digest => exact ⟨[], by simp [hmd, St.emit]⟩
        | none =>
          refine ⟨[.getHttp (make_repo_file_url repo_url
            (mod_name ++ "/mod.srf")) none], ?_⟩
          simp only [hmd]
          rw [download_full_srf_eq]
          simp [St.emit]
      | error e =>
        refine ⟨[.getHttp (make_repo_file_url repo_url
          (mod_name ++ "/mod.srf")) none], ?_⟩
        rw [download_full_srf_eq]
        simp [St.emit]
  · intro buf e hbuf hext
    rw [download_remote_srf_partial_eq, hbuf]
    dsimp only
    rw [hext]

/-- Witness for C4 (amended): a server whose 256-byte response is
garbage; the probe falls back to the full manifest and parses it. -/
theorem C4_partial_probe_amended_witness :
    (download_remote_srf
        ⟨fun _ _ => "a", fun _ => "m", .error (),
         fun _ r => if r = none then .ok "full" else .ok "garbage",
         fun s => if s = "full" then .ok ⟨"@a", "cc", []⟩ else .error (),
         fun _ => .error (), fun _ => false, 0⟩
        ⟨⟨[], []⟩, [], 0⟩ "r" "@a" true).2 = .ok (⟨"@a", "cc", []⟩, false) := by
  have h := (C4_partial_probe_amended
    ⟨fun _ _ => "a", fun _ => "m", .error (),
     fun _ r => if r = none then .ok "full" else .ok "garbage",
     fun s => if s = "full" then .ok ⟨"@a", "cc", []⟩ else .error (),
     fun _ => .error (), fun _ => false, 0⟩
    ⟨⟨[], []⟩, [], 0⟩ "r" "@a").2.2 "garbage" .NoJsonStart (by decide) (by decide)
  rw [h]
  decide

/-- Counterexample to C4 as stated: the probe requests
`Range: bytes=0-255` (the first 256 bytes), not `bytes=0-511`. -/
theorem C4_partial_probe_counterexample :
    (download_remote_srf
        ⟨fun _ _ => "a", fun _ => "m", .error (), fun _ _ => .error (),
         fun _ => .error (), fun _ => .error (), fun _ => false, 0⟩
        ⟨⟨[], []⟩, [], 0⟩ "r" "@a" true).1.trace.head? =
      some (.getHttp "r/@a/mod.srf" (some "bytes=0-255")) ∧
    ("bytes=0-255" : String) ≠ "bytes=0-511" := by
  decide

/-! ### C2 — the mod-level diff's empty result -/

/-- C2 (amended): the forward direction of the claimed equivalence
holds — when the local manifest parsed from an existing `mod.srf` has
the remote's aggregate digest, the same file count, and the mod
directory exists, `diff_mod` returns `([], [])` and leaves the state
untouched.  The reverse direction is false: `([], [])` can also be
returned when the digests differ, because the verify-before-fetch path
can satisfy every remote entry from disk and leave no orphans (see the
counterexample). -/
theorem C2_diff_mod_amended (env : Env) (st : St) (remote_mod : RepoMod)
    (remote_srf : SrfMod) (fd : FileData) (m : SrfMod)
    (hsrf : st.fs.lookup (srfPath remote_mod.mod_name) = some fd)
    (hread : readLocalSrf fd = .ok m)
    (hdir : st.fs.dirExists remote_mod.mod_name = true)
    (hck : m.checksum = remote_srf.checksum)
    (hlen : m.files.length = remote_srf.files.length) :
    diff_mod env st remote_mod remote_srf false = (st, .ok ([], [])) := by
  have hex : st.fs.fileExists (srfPath remote_mod.mod_name) = true := by
    simp [FS.fileExists, hsrf]
  dsimp only [diff_mod, diff_mod_fs_step, diff_mod_gen_step]
  simp only [Bool.false_and, Bool.not_true, Bool.false_eq_true, if_false,
    hdir, hex, hsrf, hread, hck, hlen]
  simp

/-- Witness for C2 (amended): a concrete in-sync mod. -/
theorem C2_diff_mod_amended_witness :
    diff_mod
      ⟨fun _ _ => "agg", fun _ => "zz", .error (), fun _ _ => .error (),
       fun _ => .error (), fun _ => .error (), fun _ => false, 0⟩
      ⟨⟨[("@a/mod.srf", .srfCur ⟨"@a", "aa", [⟨"x", 1, "cc"⟩]⟩)], ["@a"]⟩, [], 0⟩
      ⟨"@a", "r", true⟩ ⟨"@a", "aa", [⟨"x", 1, "cc"⟩]⟩ false =
      (⟨⟨[("@a/mod.srf", .srfCur ⟨"@a", "aa", [⟨"x", 1, "cc"⟩]⟩)], ["@a"]⟩, [], 0⟩,
       .ok ([], [])) := by
  exact C2_diff_mod_amended _ _ _ _
    (.srfCur ⟨"@a", "aa", [⟨"x", 1, "cc"⟩]⟩) ⟨"@a", "aa", [⟨"x", 1, "cc"⟩]⟩
    (by decide) rfl (by decide) rfl rfl

/-- Environment for the C2 counterexample: the file on disk at `@a/x`
hashes to the digest the remote manifest expects. -/
def envC2 : Env :=
  ⟨fun _ _ => "agg",
   fun fd => match fd with
     | .blob b => if b = [7] then "cc" else "xx"
     | _ => "xx",
   .error (), fun _ _ => .error (), fun _ => .error (), fun _ => .error (),
   fun _ => false, 0⟩

/-- Local manifest of the C2 counterexample: digest and per-file digest
both differ from the remote. -/
def localC2 : SrfMod := ⟨"@a", "bbbb", [⟨"x", 1, "dd"⟩]⟩

/-- Remote manifest of the C2 counterexample. -/
def remoteC2 : SrfMod := ⟨"@a", "aaaa", [⟨"x", 1, "cc"⟩]⟩

/-- State of the C2 counterexample: local `mod.srf` holds `localC2`,
and the actual file on disk hashes to the remote digest. -/
def stC2 : St :=
  ⟨⟨[("@a/mod.srf", .srfCur localC2), ("@a/x", .blob [7])], ["@a"]⟩, [], 0⟩

/-- Counterexample to C2 as stated: `diff_mod` returns `([], [])`
although the aggregate digests do not match — the verify-before-fetch
path finds the remote file's digest already on disk, and no local
orphans remain — so `([], [])` is not equivalent to
digest-match ∧ count-match ∧ directory-exists. -/
theorem C2_diff_mod_counterexample :
    (diff_mod envC2 stC2 ⟨"@a", "r", true⟩ remoteC2 false).2 =
      .ok ([], []) ∧
    stC2.fs.lookup (srfPath "@a") = some (.srfCur localC2) ∧
    localC2.checksum ≠ remoteC2.checksum ∧
    localC2.files.length = remoteC2.files.length ∧
    stC2.fs.dirExists "@a" = true := by
  decide

/-! ### C1 — what a successful sync commits -/

theorem string_data_inj {a b : String} (h : a.data = b.data) : a = b := by
  cases a
  cases b
  exact congrArg String.mk h

theorem srfPath_inj {a b : String} (h : srfPath a = srfPath b) : a = b := by
  have hd := congrArg String.data h
  simp only [srfPath, String.data_append] at hd
  exact string_data_inj (List.append_cancel_right hd)

theorem to_disk_lookup_cache (c : ModCache) (st : St) :
    (ModCache.to_disk c st).fs.lookup cacheFileName = some (.cacheF c) := by
  simp [ModCache.to_disk, St.emit, FS.lookup_write_self]

theorem save_srf_files_lookup_other (srfs : List DownloadedSrf) (st : St)
    (p : String) (hp : ∀ d ∈ srfs, srfPath d.mod_name ≠ p) :
    (save_srf_files srfs st).fs.lookup p = st.fs.lookup p := by
  induction srfs generalizing st with
  | nil => rfl
  | cons d rest ih =>
    simp only [save_srf_files]
    rw [ih _ fun d' hd' => hp d' (List.mem_cons_of_mem _ hd')]
    simp [St.emit, St.mkdirAll]
    exact FS.lookup_write_ne _ _ _ _ (hp d (List.mem_cons_self _ _))

theorem save_srf_files_lookup (srfs : List DownloadedSrf) (st : St)
    (hnodup : (srfs.map DownloadedSrf.mod_name).Nodup) :
    ∀ d ∈ srfs, (save_srf_files srfs st).fs.lookup (srfPath d.mod_name) =
      some (.srfCur d.srf_data) := by
  induction srfs generalizing st with
  | nil => intro d hd; cases hd
  | cons d0 rest ih =>
    intro d hd
    rw [List.map_cons, List.nodup_cons] at hnodup
    rcases List.mem_cons.mp hd with heq | hd
    · subst heq
      simp only [save_srf_files]
      rw [save_srf_files_lookup_other rest _ _ ?_]
      · simp [St.emit, St.mkdirAll]
        exact FS.lookup_write_self _ _ _
      · intro d' hd' heq
        exact hnodup.1 (srfPath_inj heq ▸ List.mem_map_of_mem _ hd')
    · simp only [save_srf_files]
      exact ih _ hnodup.2 d hd

theorem sync_stage2_success_cache (env : Env) (repo_url : String)
    (force : Bool) (repo : Repository) (cache : ModCache) (st : St)
    (hok : (sync_stage2 env repo_url false force repo cache st).2 = .ok ()) :
    (sync_stage2 env repo_url false force repo cache st).1.fs.lookup
        cacheFileName =
      some (.cacheF
        { cache with repository := some repo, last_sync := some env.now }) := by
  unfold sync_stage2 at hok ⊢
  cases h1 : download_partial_srfs env repo_url repo.required_mods [] st with
  | mk st1 r1 =>
    rw [h1] at hok
    cases r1 with
    | error e => simp at hok
    | ok ps =>
      dsimp only at hok ⊢
      cases h2 : sync_mod_loop env repo_url force ps ([], []) st1 with
      | mk st2 r2 =>
        rw [h2] at hok
        cases r2 with
        | error e => simp at hok
        | ok acc =>
          obtain ⟨cmds, srfs⟩ := acc
          dsimp only at hok ⊢
          cases h3 : execute_command_list env repo_url cmds st2 with
          | mk st3 r3 =>
            rw [h3] at hok
            cases r3 with
            | error e => simp at hok
            | ok u =>
              cases u
              dsimp only at hok ⊢
              exact to_disk_lookup_cache _ _

/-- C1 (amended): for every non-dry-run sync that returns success, the
final cache file holds exactly the loaded cache with only `repository`
and `last_sync` updated — `cache.insert` is never invoked, so the
`mods` map is unchanged and a synced mod's aggregate digest is a key of
`cache.mods` only if it already was one; the remote manifests of mods
that required work are still written to `<name>/mod.srf` by
`save_srf_files`. -/
theorem C1_sync_success_amended (env : Env) (st : St) (repo_url : String)
    (force : Bool) (repo : Repository) (cache0 : ModCache)
    (hrepo : env.repoResp = .ok repo)
    (hload : ModCache.from_disk_or_empty (sync_force_step force st).fs =
      .ok cache0)
    (hok : (sync_with_context env repo_url false force st).2 = .ok ()) :
    (sync_with_context env repo_url false force st).1.fs.lookup
        cacheFileName =
      some (.cacheF
        { cache0 with repository := some repo, last_sync := some env.now }) ∧
    ({ cache0 with repository := some repo, last_sync := some env.now }
        : ModCache).mods = cache0.mods ∧
    (∀ (srfs : List DownloadedSrf) (stx : St),
      (srfs.map DownloadedSrf.mod_name).Nodup →
      ∀ d ∈ srfs, (save_srf_files srfs stx).fs.lookup (srfPath d.mod_name) =
        some (.srfCur d.srf_data)) := by
  refine ⟨?_, rfl, fun srfs stx hn d hd => save_srf_files_lookup srfs stx hn d hd⟩
  unfold sync_with_context at hok ⊢
  dsimp only at hok ⊢
  cases hc1 : env.cancel (sync_force_step force st).clock with
  | true => simp [hc1] at hok
  | false =>
    simp only [hc1, Bool.false_eq_true, if_false] at hok ⊢
    rw [hrepo] at hok ⊢
    dsimp only [St.tick, St.emit] at hok ⊢
    cases hc2 : env.cancel ((sync_force_step force st).clock + 1) with
    | true => simp [hc2] at hok
    | false =>
      simp only [hc2, Bool.false_eq_true, if_false] at hok ⊢
      rw [hload] at hok ⊢
      dsimp only at hok ⊢
      exact sync_stage2_success_cache _ _ _ _ _ _ hok

/-- Remote repository manifest of the concrete C1 scenario. -/
def repo1 : Repository :=
  ⟨"repo", "rc", [⟨"@a", "aaaaaaaaaaaaaaaaaaaaaaaaaaaaaaaa", true⟩], [], "1.0"⟩

/-- Remote mod manifest of the concrete C1 scenario. -/
def remote1 : SrfMod :=
  ⟨"@a", "aaaaaaaaaaaaaaaaaaaaaaaaaaaaaaaa", [⟨"x.bin", 2, "cc"⟩]⟩

/-- First 256 bytes of the remote `mod.srf` in the C1 scenario. -/
def partialBody1 : String :=
  "\x7b\"Checksum\":\"aaaaaaaaaaaaaaaaaaaaaaaaaaaaaaaa\"\x7d"

/-- Environment of the concrete C1 scenario: one required mod `@a`
whose local manifest is stale, with one file to download. -/
def env1 : Env :=
  ⟨fun _ _ => "agg", fun _ => "zz", .ok repo1,
   fun _ r => if r = none then .ok "full" else .ok partialBody1,
   fun s => if s = "full" then .ok remote1 else .error (),
   fun _ => .ok ⟨2, [.chunk [1, 2]]⟩,
   fun _ => false, 5⟩

/-- Initial state of the concrete C1 scenario: `@a` exists locally with
a stale manifest and no cache file. -/
def st1 : St := ⟨⟨[("@a/mod.srf", .srfCur ⟨"@a", "bb", []⟩)], ["@a"]⟩, [], 0⟩

/-- Counterexample to C1 as stated: a successful non-dry-run sync in
which mod `@a` required work and its download succeeded (the `saveSrf`
event shows `save_srf_files` wrote the remote manifest), yet the saved
cache's `mods` map is empty — the manifest was never inserted, so the
mod's aggregate digest is not a key of `cache.mods`. -/
theorem C1_sync_counterexample :
    (sync_with_context env1 "r" false false st1).2 = .ok () ∧
    Ev.saveSrf "@a/mod.srf" remote1 ∈
      (sync_with_context env1 "r" false false st1).1.trace ∧
    (sync_with_context env1 "r" false false st1).1.fs.lookup "@a/mod.srf" =
      some (.srfCur remote1) ∧
    (sync_with_context env1 "r" false false st1).1.fs.lookup cacheFileName =
      some (.cacheF ⟨1, [], some repo1, none, some 5⟩) ∧
    lookupA (⟨1, [], some repo1, none, some 5⟩ : ModCache).mods
      remote1.checksum = none := by
  decide

/-- Witness for C1 (amended): the amended theorem applied to the
concrete C1 scenario. -/
theorem C1_sync_success_amended_witness :
    (sync_with_context env1 "r" false false st1).1.fs.lookup cacheFileName =
      some (.cacheF
        { ModCache.new_empty with
          repository := some repo1, last_sync := some 5 }) := by
  exact (C1_sync_success_amended env1 st1 "r" false repo1 ModCache.new_empty
    rfl (by decide) (by decide)).1

/-! ### C9 — cancelled syncs: invariants and preservation lemmas -/

/-- Well-formed filesystem: at most one binding per path (real
filesystems have unique paths). -/
def FSWF (fs : FS) : Prop := (fs.files.map Prod.fst).Nodup

/-- Trace invariant maintained through the per-mod loop: every
`mod.srf` write recorded in the trace went to the manifest path of a
slash-free mod name, and that path currently holds a parseable
current-encoding manifest none of whose entries is itself named
`mod.srf`. -/
def TraceInv (st : St) : Prop :=
  ∀ p m, Ev.writeSrf p m ∈ st.trace →
    (∃ n, p = srfPath n ∧ '/' ∉ n.data) ∧
    ∃ mm, st.fs.lookup p = some (.srfCur mm) ∧
      ∀ f ∈ mm.files, f.path ≠ "mod.srf"

/-- The weaker final property: every manifest written by this run still
exists on disk. -/
def WrittenPresent (st : St) : Prop :=
  ∀ p m, Ev.writeSrf p m ∈ st.trace → (st.fs.lookup p).isSome = true

/-- No event of the trace writes the cache file. -/
def NoCacheWrite (st : St) : Prop :=
  ∀ p c, Ev.writeCache p c ∉ st.trace

theorem traceInv_writtenPresent (st : St) (h : TraceInv st) :
    WrittenPresent st := by
  intro p m hm
  obtain ⟨-, mm, hl, -⟩ := h p m hm
  rw [hl]
  rfl

theorem lookupA_eq_none {α : Type} (l : List (String × α)) (k : String)
    (h : k ∉ l.map Prod.fst) : lookupA l k = none := by
  induction l with
  | nil => rfl
  | cons hd t ih =>
    simp only [List.map_cons, List.mem_cons] at h
    push_neg at h
    have hne : hd.1 ≠ k := fun he => h.1 he.symm
    show (if hd.1 = k then some hd.2 else lookupA t k) = none
    rw [if_neg hne]
    exact ih h.2

theorem insertA_keys_mem {α : Type} (l : List (String × α)) (k : String)
    (v : α) : ∀ x ∈ (insertA l k v).map Prod.fst, x = k ∨ x ∈ l.map Prod.fst := by
  induction l with
  | nil => simp [insertA]
  | cons hd t ih =>
    intro x hx
    by_cases he : hd.1 = k
    · simp only [insertA, he, if_true, List.map_cons, List.mem_cons] at hx ⊢
      tauto
    · simp only [insertA, he, if_false, List.map_cons, List.mem_cons] at hx ⊢
      rcases hx with hx | hx
      · tauto
      · rcases ih x hx with h | h <;> tauto

theorem insertA_keys_nodup {α : Type} (l : List (String × α)) (k : String)
    (v : α) (h : (l.map Prod.fst).Nodup) :
    ((insertA l k v).map Prod.fst).Nodup := by
  induction l with
  | nil => simp [insertA]
  | cons hd t ih =>
    simp only [List.map_cons, List.nodup_cons] at h
    by_cases he : hd.1 = k
    · simp only [insertA, he, if_true, List.map_cons, List.nodup_cons]
      exact ⟨he ▸ h.1, h.2⟩
    · simp only [insertA, he, if_false, List.map_cons, List.nodup_cons]
      refine ⟨fun hmem => ?_, ih h.2⟩
      rcases insertA_keys_mem t k v hd.1 hmem with h1 | h1
      · exact he h1
      · exact h.1 h1

theorem FSWF_write (fs : FS) (p : String) (d : FileData) (h : FSWF fs) :
    FSWF (fs.write p d) :=
  insertA_keys_nodup fs.files p d h

theorem removeA_keys_sublist {α : Type} (l : List (String × α)) (k : String) :
    (removeA l k).map Prod.fst |>.Sublist (l.map Prod.fst) := by
  induction l with
  | nil => simp [removeA]
  | cons hd t ih =>
    by_cases he : hd.1 = k
    · simp only [removeA, he, if_true, List.map_cons]
      exact (List.sublist_cons_self _ _)
    · simp only [removeA, he, if_false, List.map_cons]
      exact ih.cons₂ _

theorem FSWF_remove (fs : FS) (p : String) (h : FSWF fs) :
    FSWF (fs.remove p) :=
  List.Nodup.sublist (removeA_keys_sublist fs.files p) h

theorem FSWF_mkdir (fs : FS) (d : String) (h : FSWF fs) :
    FSWF (fs.mkdir d) := h

theorem lookupA_removeA_self {α : Type} (l : List (String × α)) (k : String)
    (h : (l.map Prod.fst).Nodup) : lookupA (removeA l k) k = none := by
  induction l with
  | nil => rfl
  | cons hd t ih =>
    simp only [List.map_cons, List.nodup_cons] at h
    by_cases he : hd.1 = k
    · simp only [removeA, he, if_true]
      exact lookupA_eq_none t k (he ▸ h.1)
    · have hr : removeA (hd :: t) k = hd :: removeA t k := by
        simp [removeA, he]
      rw [hr]
      show (if hd.1 = k then some hd.2 else lookupA (removeA t k) k) = none
      rw [if_neg he]
      exact ih h.2

theorem traceInv_extend (st st' : St) (hfs : st'.fs = st.fs)
    (htr : ∃ Δ, st'.trace = st.trace ++ Δ ∧
      ∀ e ∈ Δ, ∀ p m, e ≠ Ev.writeSrf p m) :
    TraceInv st → TraceInv st' := by
  intro h p m hm
  obtain ⟨Δ, hΔ, hben⟩ := htr
  rw [hΔ, List.mem_append] at hm
  rcases hm with hm | hm
  · obtain ⟨h1, mm, hl, h2⟩ := h p m hm
    exact ⟨h1, mm, by rw [hfs]; exact hl, h2⟩
  · exact absurd rfl (hben _ hm p m)

theorem noCacheWrite_extend (st st' : St)
    (htr : ∃ Δ, st'.trace = st.trace ++ Δ ∧
      ∀ e ∈ Δ, ∀ p c, e ≠ Ev.writeCache p c) :
    NoCacheWrite st → NoCacheWrite st' := by
  intro h p c hm
  obtain ⟨Δ, hΔ, hben⟩ := htr
  rw [hΔ, List.mem_append] at hm
  rcases hm with hm | hm
  · exact h p c hm
  · exact hben _ hm p c rfl

theorem insertSortedBy_mem (le : SrfFile → SrfFile → Bool) (x : SrfFile) :
    ∀ (l : List SrfFile) (y : SrfFile), y ∈ insertSortedBy le x l →
      y = x ∨ y ∈ l := by
  intro l
  induction l with
  | nil => intro y hy; simpa [insertSortedBy] using hy
  | cons h t ih =>
    intro y hy
    simp only [insertSortedBy] at hy
    by_cases hle : le x h = true
    · rw [if_pos hle] at hy
      rcases List.mem_cons.mp hy with hy | hy
      · exact Or.inl hy
      · exact Or.inr hy
    · rw [if_neg hle] at hy
      rcases List.mem_cons.mp hy with hy | hy
      · exact Or.inr (List.mem_cons.mpr (Or.inl hy))
      · rcases ih y hy with h2 | h2
        · exact Or.inl h2
        · exact Or.inr (List.mem_cons.mpr (Or.inr h2))

theorem sortFilesBy_mem (le : SrfFile → SrfFile → Bool) :
    ∀ (l : List SrfFile) (y : SrfFile), y ∈ sortFilesBy le l → y ∈ l := by
  intro l
  induction l with
  | nil => intro y hy; simpa [sortFilesBy] using hy
  | cons h t ih =>
    intro y hy
    simp only [sortFilesBy] at hy
    rcases insertSortedBy_mem le h _ y hy with h' | h'
    · simp [h']
    · exact List.mem_cons_of_mem _ (ih y h')

theorem scan_mod_no_modsrf (env : Env) (fs : FS) (dir : String) :
    ∀ f ∈ (scan_mod env fs dir).files, f.path ≠ "mod.srf" := by
  intro f hf heq
  have hf2 := sortFilesBy_mem scanOrder _ f hf
  rw [List.mem_filterMap] at hf2
  obtain ⟨kv, hkv, hsome⟩ := hf2
  cases hcond : ((dir ++ "/").data.isPrefixOf kv.1.data
      && decide (kv.1 ≠ srfPath dir)) with
  | false => rw [hcond] at hsome; cases hsome
  | true =>
    rw [hcond, if_pos rfl] at hsome
    rw [Bool.and_eq_true] at hcond
    have hne : kv.1 ≠ srfPath dir := of_decide_eq_true hcond.2
    obtain ⟨t, ht⟩ := List.isPrefixOf_iff_prefix.mp hcond.1
    have hpath : f.path = (⟨kv.1.data.drop (dir ++ "/").length⟩ : String) := by
      rw [← (Option.some.injEq _ _).mp hsome]
    have hdrop : kv.1.data.drop (dir ++ "/").length = t := by
      rw [← ht]
      exact List.drop_left _ _
    have ht2 : t = "mod.srf".data := by
      have h2 : (⟨t⟩ : String) = "mod.srf" := by
        rw [← hdrop, ← hpath, heq]
      exact congrArg String.data h2
    apply hne
    apply string_data_inj
    rw [← ht, ht2]
    show (dir ++ "/").data ++ "mod.srf".data = (dir ++ "/mod.srf").data
    rw [String.data_append, String.data_append, List.append_assoc]
    rfl

theorem append_sep_inj {α : Type} (sep : α) :
    ∀ (a b c d : List α), sep ∉ a → sep ∉ b →
      a ++ sep :: c = b ++ sep :: d → a = b ∧ c = d := by
  intro a
  induction a with
  | nil =>
    intro b c d _ hb h
    cases b with
    | nil => simpa using h
    | cons y ys =>
      rw [List.nil_append, List.cons_append] at h
      injection h with h1 h2
      exact absurd (h1 ▸ List.mem_cons_self y ys) hb
  | cons x xs ih =>
    intro b c d ha hb h
    cases b with
    | nil =>
      rw [List.nil_append, List.cons_append] at h
      injection h with h1 h2
      exact absurd (h1 ▸ List.mem_cons_self x xs) ha
    | cons y ys =>
      rw [List.cons_append, List.cons_append] at h
      injection h with h1 h2
      have hr := ih ys c d (fun hm => ha (List.mem_cons_of_mem _ hm))
        (fun hm => hb (List.mem_cons_of_mem _ hm)) h2
      exact ⟨by rw [h1, hr.1], hr.2⟩

theorem srfPath_data (n : String) :
    (srfPath n).data = n.data ++ '/' :: "mod.srf".data := by
  show (n ++ "/mod.srf").data = _
  rw [String.data_append]

theorem join_data (dir f : String) :
    (dir ++ "/" ++ f).data = dir.data ++ '/' :: f.data := by
  rw [String.data_append, String.data_append, List.append_assoc]
  rfl

theorem join_eq_srfPath {dir f n : String}
    (hdir : '/' ∉ dir.data) (hn : '/' ∉ n.data)
    (h : dir ++ "/" ++ f = srfPath n) : dir = n ∧ f = "mod.srf" := by
  have hd := congrArg String.data h
  rw [join_data, srfPath_data] at hd
  obtain ⟨h1, h2⟩ := append_sep_inj '/' _ _ _ _ hdir hn hd
  exact ⟨string_data_inj h1, string_data_inj h2⟩

theorem lookup_write_isSome_mono (fs : FS) (p : String) (d : FileData)
    (q : String) (h : (fs.lookup q).isSome = true) :
    ((fs.write p d).lookup q).isSome = true := by
  by_cases he : p = q
  · subst he
    rw [FS.lookup_write_self]
    rfl
  · rw [FS.lookup_write_ne _ _ _ _ he]
    exact h

/-- Events that neither write a manifest nor write the cache file. -/
def benignEv (e : Ev) : Prop :=
  (∀ p m, e ≠ Ev.writeSrf p m) ∧ (∀ p c, e ≠ Ev.writeCache p c)

theorem dlLoop_pres (env : Env) (total : Nat) :
    ∀ (chunks : List ReadRes) (acc : List Nat) (st : St),
      (dlLoop env total chunks acc st).1.fs = st.fs ∧
      ∃ Δ, (dlLoop env total chunks acc st).1.trace = st.trace ++ Δ ∧
        ∀ e ∈ Δ, benignEv e := by
  intro chunks
  induction chunks with
  | nil => intro acc st; exact ⟨rfl, [], by simp [dlLoop], by simp⟩
  | cons c rest ih =>
    intro acc st
    match c with
    | .readErr => exact ⟨rfl, [], by simp [dlLoop], by simp⟩
    | .chunk [] => exact ⟨rfl, [], by simp [dlLoop], by simp⟩
    | .chunk (b :: bs) =>
      by_cases hc : env.cancel st.clock = true
      · have heq : dlLoop env total (ReadRes.chunk (b :: bs) :: rest) acc st =
            (st.tick, .error .Cancelled) := by
          show (if env.cancel st.clock = true then _ else _) = _
          rw [if_pos hc]
        rw [heq]
        exact ⟨rfl, [], by simp [St.tick], by simp⟩
      · have heq : dlLoop env total (ReadRes.chunk (b :: bs) :: rest) acc st =
            dlLoop env total rest (acc ++ (b :: bs))
              ((st.tick).emit (.writeTempChunk (b :: bs).length)) := by
          show (if env.cancel st.clock = true then _ else _) = _
          rw [if_neg hc]
        rw [heq]
        obtain ⟨hfs, Δ, hΔ, hben⟩ := ih (acc ++ (b :: bs))
          ((st.tick).emit (.writeTempChunk (b :: bs).length))
        refine ⟨by rw [hfs]; rfl, Ev.writeTempChunk (b :: bs).length :: Δ, ?_, ?_⟩
        · rw [hΔ]
          simp [St.tick, St.emit]
        · intro e he
          rcases List.mem_cons.mp he with rfl | he
          · exact ⟨fun p m => by simp, fun p c => by simp⟩
          · exact hben e he

theorem download_file_pres (env : Env) (st : St) (url : String) :
    (download_file env st url).1.fs = st.fs ∧
    ∃ Δ, (download_file env st url).1.trace = st.trace ++ Δ ∧
      ∀ e ∈ Δ, benignEv e := by
  dsimp only [download_file]
  cases env.blob url with
  | error e =>
    exact ⟨rfl, [.getHttp url none], by simp [St.emit], by simp [benignEv]⟩
  | ok rdr =>
    obtain ⟨hfs, Δ, hΔ, hben⟩ :=
      dlLoop_pres env rdr.contentLength rdr.chunks [] (st.emit (.getHttp url none))
    refine ⟨by rw [hfs]; rfl, Ev.getHttp url none :: Δ, ?_, ?_⟩
    · rw [hΔ]
      simp [St.emit]
    · intro e he
      rcases List.mem_cons.mp he with rfl | he
      · exact ⟨fun p m => by simp, fun p c => by simp⟩
      · exact hben e he

theorem download_task_pres (env : Env) (st : St) (rb : String)
    (cmd : DownloadCommand) :
    (∃ Δ, (download_task env st rb cmd).1.trace = st.trace ++ Δ ∧
      ∀ e ∈ Δ, benignEv e) ∧
    (∀ p, (st.fs.lookup p).isSome = true →
      ((download_task env st rb cmd).1.fs.lookup p).isSome = true) := by
  dsimp only [download_task]
  obtain ⟨hfs, Δ, hΔ, hben⟩ :=
    download_file_pres env (st.emit (.createTemp .systemTmp))
      (make_repo_file_url rb cmd.file)
  cases hdf : download_file env (st.emit (.createTemp .systemTmp))
      (make_repo_file_url rb cmd.file) with
  | mk st1 r1 =>
    rw [hdf] at hfs hΔ
    cases r1 with
    | error e =>
      refine ⟨⟨Ev.createTemp .systemTmp :: Δ, ?_, ?_⟩, fun p hp => ?_⟩
      · rw [hΔ]; simp [St.emit]
      · intro e he
        rcases List.mem_cons.mp he with rfl | he
        · exact ⟨fun p m => by simp, fun p c => by simp⟩
        · exact hben e he
      · rw [hfs]; exact hp
    | ok v =>
      obtain ⟨sz, bytes⟩ := v
      refine ⟨⟨Ev.createTemp .systemTmp :: Δ ++
        [.createDir (parentDir cmd.file), .createDest cmd.file,
         .copyTempToDest cmd.file], ?_, ?_⟩, fun p hp => ?_⟩
      · dsimp only [St.mkdirAll, St.emit]
        rw [hΔ]
        simp [St.emit, List.append_assoc]
      · intro e he
        rcases List.mem_cons.mp he with rfl | he
        · exact ⟨fun p m => by simp, fun p c => by simp⟩
        · rcases List.mem_append.mp he with he | he
          · exact hben e he
          · rcases List.mem_cons.mp he with rfl | he
            · exact ⟨fun p m => by simp, fun p c => by simp⟩
            · rcases List.mem_cons.mp he with rfl | he
              · exact ⟨fun p m => by simp, fun p c => by simp⟩
              · rcases List.mem_cons.mp he with rfl | he
                · exact ⟨fun p m => by simp, fun p c => by simp⟩
                · cases he
      · dsimp only [St.mkdirAll, St.emit]
        apply lookup_write_isSome_mono
        apply lookup_write_isSome_mono
        show ((st1.fs.mkdir (parentDir cmd.file)).lookup p).isSome = true
        rw [FS.lookup_mkdir, hfs]
        exact hp

theorem execute_command_list_pres (env : Env) (rb : String) :
    ∀ (cmds : List DownloadCommand) (st : St),
      (∃ Δ, (execute_command_list env rb cmds st).1.trace = st.trace ++ Δ ∧
        ∀ e ∈ Δ, benignEv e) ∧
      (∀ p, (st.fs.lookup p).isSome = true →
        ((execute_command_list env rb cmds st).1.fs.lookup p).isSome = true) := by
  intro cmds
  induction cmds with
  | nil =>
    intro st
    exact ⟨⟨[], by simp [execute_command_list], by simp⟩, fun p hp => hp⟩
  | cons cmd rest ih =>
    intro st
    by_cases hc : env.cancel st.clock = true
    · have heq : execute_command_list env rb (cmd :: rest) st =
          (st.tick, .error .Cancelled) := by
        show (if env.cancel st.clock = true then _ else _) = _
        rw [if_pos hc]
      rw [heq]
      exact ⟨⟨[], by simp [St.tick], by simp⟩, fun p hp => hp⟩
    · have heq : ∀ r, execute_command_list env rb (cmd :: rest) st = r →
          (execute_command_list env rb (cmd :: rest) st = r) := fun _ h => h
      have hstep : execute_command_list env rb (cmd :: rest) st =
          match download_task env st.tick rb cmd with
          | (st, .error .Cancelled) => (st, .error .Cancelled)
          | (st, .error (.Http url)) => (st, .error (.Http url))
          | (st, .error .Io) => (st, .error .Io)
          | (st, .ok ()) => execute_command_list env rb rest st := by
        show (if env.cancel st.clock = true then _ else _) = _
        rw [if_neg hc]
      rw [hstep]
      obtain ⟨⟨Δ, hΔ, hben⟩, hmono⟩ := download_task_pres env st.tick rb cmd
      cases hdt : download_task env st.tick rb cmd with
      | mk st1 r1 =>
        rw [hdt] at hΔ hmono
        have htick : st.tick.trace = st.trace := rfl
        have hfstick : st.tick.fs = st.fs := rfl
        cases r1 with
        | error e =>
          cases e with
          | Cancelled =>
            exact ⟨⟨Δ, by rw [hΔ, htick], hben⟩,
              fun p hp => hmono p (by rw [hfstick]; exact hp)⟩
          | Http url =>
            exact ⟨⟨Δ, by rw [hΔ, htick], hben⟩,
              fun p hp => hmono p (by rw [hfstick]; exact hp)⟩
          | Io =>
            exact ⟨⟨Δ, by rw [hΔ, htick], hben⟩,
              fun p hp => hmono p (by rw [hfstick]; exact hp)⟩
        | ok u =>
          cases u
          obtain ⟨⟨Δ2, hΔ2, hben2⟩, hmono2⟩ := ih st1
          refine ⟨⟨Δ ++ Δ2, ?_, ?_⟩, fun p hp => ?_⟩
          · rw [hΔ2, hΔ, htick, List.append_assoc]
          · intro e he
            rcases List.mem_append.mp he with he | he
            · exact hben e he
            · exact hben2 e he
          · exact hmono2 p (hmono p (by rw [hfstick]; exact hp))

theorem download_full_srf_pres (env : Env) (st : St) (url name : String) :
    (download_full_srf env st url name).1.fs = st.fs ∧
    ∃ Δ, (download_full_srf env st url name).1.trace = st.trace ++ Δ ∧
      ∀ e ∈ Δ, benignEv e := by
  rw [download_full_srf_eq]
  exact ⟨rfl, [.getHttp url none], by simp [St.emit], by simp [benignEv]⟩

theorem download_remote_srf_pres (env : Env) (st : St)
    (repo_url mod_name : String) (part : Bool) :
    (download_remote_srf env st repo_url mod_name part).1.fs = st.fs ∧
    ∃ Δ, (download_remote_srf env st repo_url mod_name part).1.trace =
        st.trace ++ Δ ∧ ∀ e ∈ Δ, benignEv e := by
  cases part with
  | false =>
    exact download_full_srf_pres env st
      (make_repo_file_url repo_url (mod_name ++ "/mod.srf")) mod_name
  | true =>
    rw [download_remote_srf_partial_eq]
    cases env.srfBody (make_repo_file_url repo_url (mod_name ++ "/mod.srf"))
        (some (rangeHeaderStr 0 255)) with
    | error e =>
      exact ⟨rfl,
        [.getHttp (make_repo_file_url repo_url (mod_name ++ "/mod.srf"))
          (some (rangeHeaderStr 0 255))],
        by simp [St.emit], by simp [benignEv]⟩
    | ok buf =>
      dsimp only
      cases extract_checksum (trimBom buf) with
      | ok checksum =>
        dsimp only
        cases md5Digest_new checksum with
        | some digest =>
          exact ⟨rfl,
            [.getHttp (make_repo_file_url repo_url (mod_name ++ "/mod.srf"))
              (some (rangeHeaderStr 0 255))],
            by simp [St.emit], by simp [benignEv]⟩
        | none =>
          obtain ⟨hfs, Δ, hΔ, hben⟩ := download_full_srf_pres env
            (st.emit (.getHttp
              (make_repo_file_url repo_url (mod_name ++ "/mod.srf"))
              (some (rangeHeaderStr 0 255))))
            (make_repo_file_url repo_url (mod_name ++ "/mod.srf")) mod_name
          refine ⟨by rw [hfs]; rfl,
            Ev.getHttp (make_repo_file_url repo_url (mod_name ++ "/mod.srf"))
              (some (rangeHeaderStr 0 255)) :: Δ, ?_, ?_⟩
          · rw [hΔ]; simp [St.emit]
          · intro e he
            rcases List.mem_cons.mp he with rfl | he
            · exact ⟨fun p m => by simp, fun p c => by simp⟩
            · exact hben e he
      | error e =>
        obtain ⟨hfs, Δ, hΔ, hben⟩ := download_full_srf_pres env
          (st.emit (.getHttp
            (make_repo_file_url repo_url (mod_name ++ "/mod.srf"))
            (some (rangeHeaderStr 0 255))))
          (make_repo_file_url repo_url (mod_name ++ "/mod.srf")) mod_name
        refine ⟨by rw [hfs]; rfl,
          Ev.getHttp (make_repo_file_url repo_url (mod_name ++ "/mod.srf"))
            (some (rangeHeaderStr 0 255)) :: Δ, ?_, ?_⟩
        · rw [hΔ]; simp [St.emit]
        · intro e he
          rcases List.mem_cons.mp he with rfl | he
          · exact ⟨fun p m => by simp, fun p c => by simp⟩
          · exact hben e he

theorem download_full_srf_no_cancel_err (env : Env) (st : St)
    (url name : String) (e : SyncError)
    (h : (download_full_srf env st url name).2 = .error e) :
    e ≠ SyncError.Cancelled := by
  rw [download_full_srf_eq] at h
  dsimp only at h
  cases henv : env.srfBody url none with
  | error u =>
    rw [henv] at h
    cases h
    simp
  | ok buf =>
    rw [henv] at h
    dsimp only at h
    cases hp : env.parseSrfStr (trimBom buf) with
    | error u =>
      rw [hp] at h
      cases h
      simp
    | ok srf =>
      rw [hp] at h
      cases h

theorem download_remote_srf_no_cancel_err (env : Env) (st : St)
    (repo_url mod_name : String) (part : Bool) (e : SyncError)
    (h : (download_remote_srf env st repo_url mod_name part).2 = .error e) :
    e ≠ SyncError.Cancelled := by
  cases part with
  | false =>
    exact download_full_srf_no_cancel_err env st
      (make_repo_file_url repo_url (mod_name ++ "/mod.srf")) mod_name e h
  | true =>
    rw [download_remote_srf_partial_eq] at h
    cases henv : env.srfBody (make_repo_file_url repo_url (mod_name ++ "/mod.srf"))
        (some (rangeHeaderStr 0 255)) with
    | error u =>
      rw [henv] at h
      cases h
      simp
    | ok buf =>
      rw [henv] at h
      dsimp only at h
      cases hext : extract_checksum (trimBom buf) with
      | ok checksum =>
        rw [hext] at h
        dsimp only at h
        cases hmd : md5Digest_new checksum with
        | some digest =>
          rw [hmd] at h
          cases h
        | none =>
          rw [hmd] at h
          exact download_full_srf_no_cancel_err env _
            (make_repo_file_url repo_url (mod_name ++ "/mod.srf")) mod_name e h
      | error u =>
        rw [hext] at h
        exact download_full_srf_no_cancel_err env _
          (make_repo_file_url repo_url (mod_name ++ "/mod.srf")) mod_name e h

/-- Events that do not write the cache file. -/
def noCacheEv (e : Ev) : Prop := ∀ p c, e ≠ Ev.writeCache p c

theorem benignEv_noCacheEv (e : Ev) (h : benignEv e) : noCacheEv e := h.2

theorem download_partial_srfs_pres (env : Env) (repo_url : String) :
    ∀ (mods : List RepoMod) (acc : List (RepoMod × SrfMod × Bool)) (st : St),
      (download_partial_srfs env repo_url mods acc st).1.fs = st.fs ∧
      ∃ Δ, (download_partial_srfs env repo_url mods acc st).1.trace =
          st.trace ++ Δ ∧ ∀ e ∈ Δ, benignEv e := by
  intro mods
  induction mods with
  | nil =>
    intro acc st
    exact ⟨rfl, [], by simp [download_partial_srfs], by simp⟩
  | cons m rest ih =>
    intro acc st
    obtain ⟨hfs, Δ, hΔ, hben⟩ :=
      download_remote_srf_pres env st repo_url m.mod_name true
    dsimp only [download_partial_srfs]
    cases hdr : download_remote_srf env st repo_url m.mod_name true with
    | mk st1 r1 =>
      rw [hdr] at hfs hΔ
      cases r1 with
      | error e => exact ⟨hfs, Δ, hΔ, hben⟩
      | ok v =>
        obtain ⟨srf, part⟩ := v
        obtain ⟨hfs2, Δ2, hΔ2, hben2⟩ := ih (acc ++ [(m, srf, part)]) st1
        exact ⟨by rw [hfs2, hfs], Δ ++ Δ2,
          by rw [hΔ2, hΔ, List.append_assoc],
          fun e he => (List.mem_append.mp he).elim (hben e) (hben2 e)⟩

theorem download_partial_srfs_no_cancel_err (env : Env) (repo_url : String) :
    ∀ (mods : List RepoMod) (acc : List (RepoMod × SrfMod × Bool)) (st : St)
      (e : SyncError),
      (download_partial_srfs env repo_url mods acc st).2 = .error e →
      e ≠ SyncError.Cancelled := by
  intro mods
  induction mods with
  | nil =>
    intro acc st e h
    cases h
  | cons m rest ih =>
    intro acc st e h
    dsimp only [download_partial_srfs] at h
    cases hdr : download_remote_srf env st repo_url m.mod_name true with
    | mk st1 r1 =>
      rw [hdr] at h
      cases r1 with
      | error e2 =>
        dsimp only at h
        cases h
        exact download_remote_srf_no_cancel_err env st repo_url m.mod_name true
          e (by rw [hdr])
      | ok v =>
        obtain ⟨srf, part⟩ := v
        exact ih (acc ++ [(m, srf, part)]) st1 e h

theorem download_partial_srfs_items (env : Env) (repo_url : String) :
    ∀ (mods : List RepoMod) (acc : List (RepoMod × SrfMod × Bool)) (st : St)
      (ps : List (RepoMod × SrfMod × Bool)),
      (download_partial_srfs env repo_url mods acc st).2 = .ok ps →
      ∀ it ∈ ps, it ∈ acc ∨ it.1 ∈ mods := by
  intro mods
  induction mods with
  | nil =>
    intro acc st ps h it hit
    cases h
    exact Or.inl hit
  | cons m rest ih =>
    intro acc st ps h it hit
    dsimp only [download_partial_srfs] at h
    cases hdr : download_remote_srf env st repo_url m.mod_name true with
    | mk st1 r1 =>
      rw [hdr] at h
      cases r1 with
      | error e => cases h
      | ok v =>
        obtain ⟨srf, part⟩ := v
        rcases ih (acc ++ [(m, srf, part)]) st1 ps h it hit with hin | hin
        · rcases List.mem_append.mp hin with hin | hin
          · exact Or.inl hin
          · rcases List.mem_cons.mp hin with rfl | hin
            · exact Or.inr (by simp)
            · cases hin
        · exact Or.inr (List.mem_cons_of_mem _ hin)

theorem diff_mod_fst (env : Env) (st : St) (rm : RepoMod) (rs : SrfMod)
    (force : Bool) :
    (diff_mod env st rm rs force).1 =
      diff_mod_fs_step env st rm.mod_name rs force := by
  dsimp only [diff_mod]
  cases (diff_mod_fs_step env st rm.mod_name rs force).fs.lookup
      (srfPath rm.mod_name) with
  | none => rfl
  | some fd =>
    dsimp only
    cases readLocalSrf fd with
    | error e => rfl
    | ok m =>
      dsimp only
      split <;> rfl

theorem insertA_mem {α : Type} (l : List (String × α)) (k : String) (v : α) :
    ∀ kv ∈ insertA l k v, kv = (k, v) ∨ kv ∈ l := by
  induction l with
  | nil => simp [insertA]
  | cons hd t ih =>
    intro kv hkv
    by_cases he : hd.1 = k
    · simp only [insertA, he, if_true, List.mem_cons] at hkv ⊢
      tauto
    · simp only [insertA, he, if_false, List.mem_cons] at hkv ⊢
      rcases hkv with hkv | hkv
      · tauto
      · rcases ih kv hkv with h | h <;> tauto

theorem removeA_mem {α : Type} (l : List (String × α)) (k : String) :
    ∀ kv ∈ removeA l k, kv ∈ l := by
  induction l with
  | nil => simp [removeA]
  | cons hd t ih =>
    intro kv hkv
    by_cases he : hd.1 = k
    · simp only [removeA, he, if_true] at hkv
      exact List.mem_cons_of_mem _ hkv
    · simp only [removeA, he, if_false, List.mem_cons] at hkv
      rcases hkv with hkv | hkv
      · simp [hkv]
      · exact List.mem_cons_of_mem _ (ih kv hkv)

theorem foldl_insertA_mem (files : List SrfFile) :
    ∀ (acc : List (String × SrfFile)) (kv : String × SrfFile),
      kv ∈ files.foldl (fun m f => insertA m f.path f) acc →
      kv ∈ acc ∨ ∃ f ∈ files, kv.1 = f.path := by
  induction files with
  | nil => intro acc kv h; exact Or.inl h
  | cons f rest ih =>
    intro acc kv h
    rcases ih (insertA acc f.path f) kv h with h2 | ⟨g, hg, he⟩
    · rcases insertA_mem acc f.path f kv h2 with h3 | h3
      · exact Or.inr ⟨f, by simp, by rw [h3]⟩
      · exact Or.inl h3
    · exact Or.inr ⟨g, List.mem_cons_of_mem _ hg, he⟩

theorem fileMapOf_mem (files : List SrfFile) (kv : String × SrfFile)
    (h : kv ∈ fileMapOf files) : ∃ f ∈ files, kv.1 = f.path := by
  rcases foldl_insertA_mem files [] kv h with h2 | h2
  · cases h2
  · exact h2

theorem diffFilesLoop_leftover_mem (env : Env) (fs : FS) (dir : String) :
    ∀ (rems locals : List (String × SrfFile)) (dl : List DownloadCommand)
      (kv : String × SrfFile),
      kv ∈ (diffFilesLoop env fs dir rems locals dl).2 → kv ∈ locals := by
  intro rems
  induction rems with
  | nil => intro locals dl kv h; exact h
  | cons rf rest ih =>
    intro locals dl kv h
    obtain ⟨path, file⟩ := rf
    exact removeA_mem _ _ _ (ih _ _ kv h)

theorem diff_mod_deletes (env : Env) (st : St) (rm : RepoMod) (rs : SrfMod)
    (force : Bool) (dl : List DownloadCommand) (del : List DeleteCommand)
    (h : (diff_mod env st rm rs force).2 = .ok (dl, del)) :
    ∃ fd m,
      (diff_mod_fs_step env st rm.mod_name rs force).fs.lookup
        (srfPath rm.mod_name) = some fd ∧
      readLocalSrf fd = .ok m ∧
      ∀ c ∈ del, ∃ f ∈ m.files, c.file = f.path := by
  dsimp only [diff_mod] at h
  cases hl : (diff_mod_fs_step env st rm.mod_name rs force).fs.lookup
      (srfPath rm.mod_name) with
  | none => rw [hl] at h; cases h
  | some fd =>
    rw [hl] at h
    dsimp only at h
    cases hr : readLocalSrf fd with
    | error e => rw [hr] at h; cases h
    | ok m =>
      rw [hr] at h
      dsimp only at h
      refine ⟨fd, m, rfl, hr, ?_⟩
      split at h
      · cases h
        intro c hc
        cases hc
      · cases h
        intro c hc
        rw [List.mem_map] at hc
        obtain ⟨kv, hkv, hc⟩ := hc
        have hkv2 := diffFilesLoop_leftover_mem env _ _ _ _ _ kv hkv
        obtain ⟨f, hf, he⟩ := fileMapOf_mem _ _ hkv2
        exact ⟨f, hf, by rw [← hc, he]⟩

theorem rmFile_trace (st : St) (p : String) :
    (st.rmFile p).trace = st.trace ++ [Ev.removeFile p] := rfl

theorem rmFile_fs (st : St) (p : String) :
    (st.rmFile p).fs = st.fs.remove p := rfl

theorem mkdirAll_trace (st : St) (d : String) :
    (st.mkdirAll d).trace = st.trace ++ [Ev.createDir d] := rfl

theorem mkdirAll_lookup (st : St) (d p : String) :
    (st.mkdirAll d).fs.lookup p = st.fs.lookup p := rfl

theorem noCacheWrite_rmFile (st : St) (p : String) (h : NoCacheWrite st) :
    NoCacheWrite (st.rmFile p) := by
  intro q c hm
  rw [rmFile_trace, List.mem_append] at hm
  rcases hm with hm | hm
  · exact h q c hm
  · simp at hm

theorem noCacheWrite_mkdirAll (st : St) (d : String) (h : NoCacheWrite st) :
    NoCacheWrite (st.mkdirAll d) := by
  intro q c hm
  rw [mkdirAll_trace, List.mem_append] at hm
  rcases hm with hm | hm
  · exact h q c hm
  · simp at hm

/-- Relaxation of `TraceInv` across `diff_mod`'s force removal: the
manifest path of the mod currently being processed may transiently be
absent (it is regenerated before `diff_mod` reads it back). -/
def TraceInvX (st : St) (dir : String) : Prop :=
  ∀ p m, Ev.writeSrf p m ∈ st.trace →
    (∃ n, p = srfPath n ∧ '/' ∉ n.data) ∧
    ((p = srfPath dir ∧ st.fs.lookup p = none) ∨
      ∃ mm, st.fs.lookup p = some (.srfCur mm) ∧
        ∀ f ∈ mm.files, f.path ≠ "mod.srf")

theorem traceInv_traceInvX (st : St) (dir : String) (h : TraceInv st) :
    TraceInvX st dir := by
  intro p m hm
  obtain ⟨h1, mm, hl, h2⟩ := h p m hm
  exact ⟨h1, Or.inr ⟨mm, hl, h2⟩⟩

theorem traceInvX_rmSrf (st : St) (dir : String) (hwf : FSWF st.fs)
    (h : TraceInv st) : TraceInvX (st.rmFile (srfPath dir)) dir := by
  intro p m hm
  rw [rmFile_trace, List.mem_append] at hm
  rcases hm with hm | hm
  · obtain ⟨ha, mm, hb1, hb2⟩ := h p m hm
    refine ⟨ha, ?_⟩
    by_cases hpe : p = srfPath dir
    · subst hpe
      left
      exact ⟨rfl, lookupA_removeA_self st.fs.files (srfPath dir) hwf⟩
    · right
      refine ⟨mm, ?_, hb2⟩
      rw [rmFile_fs, FS.lookup_remove_ne _ _ _ (fun he => hpe he.symm)]
      exact hb1
  · simp at hm

/-- Helper decomposition of `diff_mod_gen_step`: its directory-creation
half. -/
def mkdirStep (st : St) (dir : String) : St :=
  if !(st.fs.dirExists dir) then st.mkdirAll dir else st

/-- Helper decomposition of `diff_mod_gen_step`: its
generate-if-absent half. -/
def genWriteStep (env : Env) (dir : String) (rs : SrfMod) (st : St) : St :=
  if !(st.fs.fileExists (srfPath dir)) then
    let initial_srf :=
      if st.fs.dirExists dir then scan_mod env st.fs dir
      else SrfMod.generate_invalid rs
    let st := st.emit (.writeSrf (srfPath dir) initial_srf)
    { st with fs := st.fs.write (srfPath dir) (.srfCur initial_srf) }
  else st

theorem diff_mod_gen_step_eq (env : Env) (st : St) (dir : String)
    (rs : SrfMod) :
    diff_mod_gen_step env st dir rs = genWriteStep env dir rs (mkdirStep st dir) := rfl

theorem initial_srf_no_modsrf (env : Env) (fs : FS) (dir : String)
    (rs : SrfMod) :
    ∀ f ∈ (if fs.dirExists dir then scan_mod env fs dir
        else SrfMod.generate_invalid rs).files, f.path ≠ "mod.srf" := by
  cases h : fs.dirExists dir with
  | true =>
    rw [if_pos rfl]
    exact scan_mod_no_modsrf env fs dir
  | false =>
    rw [if_neg Bool.false_ne_true]
    simp [SrfMod.generate_invalid]

theorem mkdirStep_inv (st : St) (dir : String) (hwf : FSWF st.fs)
    (hinv : TraceInvX st dir) (hnc : NoCacheWrite st) :
    FSWF (mkdirStep st dir).fs ∧ TraceInvX (mkdirStep st dir) dir ∧
    NoCacheWrite (mkdirStep st dir) := by
  unfold mkdirStep
  cases hde : st.fs.dirExists dir with
  | true =>
    rw [Bool.not_true, if_neg Bool.false_ne_true]
    exact ⟨hwf, hinv, hnc⟩
  | false =>
    rw [Bool.not_false, if_pos rfl]
    refine ⟨hwf, ?_, noCacheWrite_mkdirAll st dir hnc⟩
    intro p m hm
    rw [mkdirAll_trace, List.mem_append] at hm
    rcases hm with hm | hm
    · obtain ⟨ha, hb⟩ := hinv p m hm
      refine ⟨ha, ?_⟩
      rcases hb with ⟨hb1, hb2⟩ | ⟨mm, hb1, hb2⟩
      · exact Or.inl ⟨hb1, by rw [mkdirAll_lookup]; exact hb2⟩
      · exact Or.inr ⟨mm, by rw [mkdirAll_lookup]; exact hb1, hb2⟩
    · simp at hm

theorem genWriteStep_inv (env : Env) (dir : String) (rs : SrfMod) (st1 : St)
    (hwf : FSWF st1.fs) (hinv : TraceInvX st1 dir) (hnc : NoCacheWrite st1)
    (hdir : '/' ∉ dir.data) :
    FSWF (genWriteStep env dir rs st1).fs ∧
    TraceInv (genWriteStep env dir rs st1) ∧
    NoCacheWrite (genWriteStep env dir rs st1) := by
  unfold genWriteStep
  cases hfe : st1.fs.fileExists (srfPath dir) with
  | true =>
    rw [Bool.not_true, if_neg Bool.false_ne_true]
    refine ⟨hwf, ?_, hnc⟩
    intro p m hm
    obtain ⟨ha, hb⟩ := hinv p m hm
    refine ⟨ha, ?_⟩
    rcases hb with ⟨hb1, hb2⟩ | hb
    · exfalso
      subst hb1
      simp only [FS.fileExists] at hfe
      rw [hb2] at hfe
      simp at hfe
    · exact hb
  | false =>
    rw [Bool.not_false, if_pos rfl]
    dsimp only
    refine ⟨FSWF_write _ _ _ hwf, ?_, ?_⟩
    · intro p m hm
      rcases List.mem_append.mp hm with hm | hm
      · obtain ⟨ha, hb⟩ := hinv p m hm
        by_cases hpe : p = srfPath dir
        · subst hpe
          exact ⟨ha, _, FS.lookup_write_self _ _ _,
            initial_srf_no_modsrf env st1.fs dir rs⟩
        · rcases hb with ⟨hb1, hb2⟩ | ⟨mm, hb1, hb2⟩
          · exact absurd hb1 hpe
          · exact ⟨ha, mm,
              (FS.lookup_write_ne _ _ _ _ fun he => hpe he.symm).trans hb1, hb2⟩
      · rw [List.mem_singleton] at hm
        injection hm with h1 h2
        subst h1
        subst h2
        exact ⟨⟨dir, rfl, hdir⟩, _, FS.lookup_write_self _ _ _,
          initial_srf_no_modsrf env st1.fs dir rs⟩
    · intro p c hm
      rcases List.mem_append.mp hm with hm | hm
      · exact hnc p c hm
      · simp at hm

theorem diff_mod_gen_step_inv (env : Env) (st : St) (dir : String)
    (rs : SrfMod) (hwf : FSWF st.fs) (hinv : TraceInvX st dir)
    (hnc : NoCacheWrite st) (hdir : '/' ∉ dir.data) :
    FSWF (diff_mod_gen_step env st dir rs).fs ∧
    TraceInv (diff_mod_gen_step env st dir rs) ∧
    NoCacheWrite (diff_mod_gen_step env st dir rs) := by
  rw [diff_mod_gen_step_eq]
  obtain ⟨h1, h2, h3⟩ := mkdirStep_inv st dir hwf hinv hnc
  exact genWriteStep_inv env dir rs (mkdirStep st dir) h1 h2 h3 hdir

theorem diff_mod_fs_step_inv (env : Env) (st : St) (dir : String)
    (rs : SrfMod) (force : Bool) (hwf : FSWF st.fs) (hinv : TraceInv st)
    (hnc : NoCacheWrite st) (hdir : '/' ∉ dir.data) :
    FSWF (diff_mod_fs_step env st dir rs force).fs ∧
    TraceInv (diff_mod_fs_step env st dir rs force) ∧
    NoCacheWrite (diff_mod_fs_step env st dir rs force) := by
  unfold diff_mod_fs_step
  dsimp only
  cases hcond : (force && st.fs.fileExists (srfPath dir)) with
  | false =>
    rw [if_neg Bool.false_ne_true]
    exact diff_mod_gen_step_inv env st dir rs hwf
      (traceInv_traceInvX st dir hinv) hnc hdir
  | true =>
    rw [if_pos rfl]
    exact diff_mod_gen_step_inv env (st.rmFile (srfPath dir)) dir rs
      (FSWF_remove _ _ hwf) (traceInvX_rmSrf st dir hwf hinv)
      (noCacheWrite_rmFile st _ hnc) hdir

theorem remove_leftover_inv (dir : String) (hdir : '/' ∉ dir.data) :
    ∀ (deletes : List DeleteCommand) (st : St),
      FSWF st.fs → TraceInv st → NoCacheWrite st →
      (∀ c ∈ deletes,
        (∃ m, Ev.writeSrf (srfPath dir) m ∈ st.trace) → c.file ≠ "mod.srf") →
      FSWF (remove_leftover_files st dir deletes).fs ∧
      TraceInv (remove_leftover_files st dir deletes) ∧
      NoCacheWrite (remove_leftover_files st dir deletes) := by
  intro deletes
  induction deletes with
  | nil =>
    intro st h1 h2 h3 _
    exact ⟨h1, h2, h3⟩
  | cons c rest ih =>
    intro st h1 h2 h3 hdel
    have hstep : remove_leftover_files st dir (c :: rest) =
        remove_leftover_files
          (if st.fs.fileExists (dir ++ "/" ++ c.file) then
            st.rmFile (dir ++ "/" ++ c.file) else st)
          dir rest := rfl
    rw [hstep]
    by_cases hex : st.fs.fileExists (dir ++ "/" ++ c.file) = true
    · rw [if_pos hex]
      apply ih
      · exact FSWF_remove _ _ h1
      · intro p m hm
        rw [rmFile_trace, List.mem_append] at hm
        rcases hm with hm | hm
        · obtain ⟨ha, mm, hb1, hb2⟩ := h2 p m hm
          refine ⟨ha, mm, ?_, hb2⟩
          have hpne : dir ++ "/" ++ c.file ≠ p := by
            intro he
            obtain ⟨n, hn, hnf⟩ := ha
            rw [hn] at he hm
            obtain ⟨he1, he2⟩ := join_eq_srfPath hdir hnf he
            rw [← he1] at hm
            exact hdel c (List.mem_cons_self c rest) ⟨m, hm⟩ he2
          exact (FS.lookup_remove_ne _ _ _ hpne).trans hb1
        · simp at hm
      · exact noCacheWrite_rmFile _ _ h3
      · intro c2 hc2 hex2
        obtain ⟨m, hm⟩ := hex2
        rw [rmFile_trace, List.mem_append] at hm
        rcases hm with hm | hm
        · exact hdel c2 (List.mem_cons_of_mem _ hc2) ⟨m, hm⟩
        · simp at hm
    · rw [if_neg hex]
      exact ih st h1 h2 h3
        (fun c2 hc2 hex2 => hdel c2 (List.mem_cons_of_mem _ hc2) hex2)

theorem process_mod_diff_inv (env : Env) (st : St) (r_mod : RepoMod)
    (rs : SrfMod) (force : Bool) (hwf : FSWF st.fs) (hinv : TraceInv st)
    (hnc : NoCacheWrite st) (hdir : '/' ∉ r_mod.mod_name.data) :
    FSWF (process_mod_diff env st r_mod rs force).1.fs ∧
    TraceInv (process_mod_diff env st r_mod rs force).1 ∧
    NoCacheWrite (process_mod_diff env st r_mod rs force).1 := by
  obtain ⟨h1, h2, h3⟩ :=
    diff_mod_fs_step_inv env st r_mod.mod_name rs force hwf hinv hnc hdir
  dsimp only [process_mod_diff]
  cases hd : diff_mod env st r_mod rs force with
  | mk st1 r1 =>
    have hst1 : st1 = diff_mod_fs_step env st r_mod.mod_name rs force := by
      have hf := diff_mod_fst env st r_mod rs force
      rw [hd] at hf
      exact hf
    rw [← hst1] at h1 h2 h3
    cases r1 with
    | error e =>
      exact ⟨h1, h2, h3⟩
    | ok v =>
      obtain ⟨downloads, deletes⟩ := v
      dsimp only
      have hdel : ∀ c ∈ deletes,
          (∃ m, Ev.writeSrf (srfPath r_mod.mod_name) m ∈ st1.trace) →
          c.file ≠ "mod.srf" := by
        intro c hc hexm
        obtain ⟨m, hm⟩ := hexm
        obtain ⟨fd, mloc, hlk, hrd, hdl⟩ :=
          diff_mod_deletes env st r_mod rs force downloads deletes (by rw [hd])
        obtain ⟨-, mm, hlk2, hmm⟩ := h2 (srfPath r_mod.mod_name) m hm
        rw [← hst1] at hlk
        rw [hlk] at hlk2
        injection hlk2 with hfd
        subst hfd
        injection hrd with hmloc
        subst hmloc
        obtain ⟨f, hf, hcf⟩ := hdl c hc
        rw [hcf]
        exact hmm f hf
      obtain ⟨k1, k2, k3⟩ := remove_leftover_inv r_mod.mod_name hdir deletes
        st1 h1 h2 h3 hdel
      cases hdl2 : downloads.isEmpty with
      | true =>
        rw [Bool.not_true, if_neg Bool.false_ne_true]
        exact ⟨k1, k2, k3⟩
      | false =>
        rw [Bool.not_false, if_pos rfl]
        exact ⟨k1, k2, k3⟩

theorem sync_mod_loop_inv (env : Env) (repo_url : String) (force_sync : Bool) :
    ∀ (items : List (RepoMod × SrfMod × Bool))
      (acc : List DownloadCommand × List DownloadedSrf) (st : St),
      (∀ it ∈ items, '/' ∉ it.1.mod_name.data) →
      FSWF st.fs → TraceInv st → NoCacheWrite st →
      FSWF (sync_mod_loop env repo_url force_sync items acc st).1.fs ∧
      TraceInv (sync_mod_loop env repo_url force_sync items acc st).1 ∧
      NoCacheWrite (sync_mod_loop env repo_url force_sync items acc st).1 := by
  intro items
  induction items with
  | nil =>
    intro acc st _ h1 h2 h3
    exact ⟨h1, h2, h3⟩
  | cons it rest ih =>
    obtain ⟨r_mod, srf, part⟩ := it
    intro acc st hnames h1 h2 h3
    have hdirn : '/' ∉ r_mod.mod_name.data := hnames _ (List.mem_cons_self _ _)
    have hrest : ∀ it ∈ rest, '/' ∉ it.1.mod_name.data :=
      fun it hit => hnames it (List.mem_cons_of_mem _ hit)
    dsimp only [sync_mod_loop]
    cases force_sync with
    | true =>
      rw [Bool.not_true, Bool.false_and, if_neg Bool.false_ne_true,
        if_pos rfl]
      dsimp only
      obtain ⟨hfs, Δ, hΔ, hben⟩ :=
        download_remote_srf_pres env st repo_url r_mod.mod_name false
      cases hdr : download_remote_srf env st repo_url r_mod.mod_name false with
      | mk st1 r1 =>
        rw [hdr] at hfs hΔ
        dsimp only at hfs hΔ
        have h1' : FSWF st1.fs := by rw [hfs]; exact h1
        have h2' : TraceInv st1 :=
          traceInv_extend st st1 hfs ⟨Δ, hΔ, fun e he => (hben e he).1⟩ h2
        have h3' : NoCacheWrite st1 :=
          noCacheWrite_extend st st1 ⟨Δ, hΔ, fun e he => (hben e he).2⟩ h3
        cases r1 with
        | error e =>
          exact ⟨h1', h2', h3'⟩
        | ok v =>
          obtain ⟨full_srf, b⟩ := v
          dsimp only
          cases hp : process_mod_diff env st1 r_mod full_srf true with
          | mk st2 r2 =>
            have hpi := process_mod_diff_inv env st1 r_mod full_srf true
              h1' h2' h3' hdirn
            rw [hp] at hpi
            dsimp only at hpi
            obtain ⟨k1, k2, k3⟩ := hpi
            cases r2 with
            | error e =>
              exact ⟨k1, k2, k3⟩
            | ok w =>
              obtain ⟨downloads, o⟩ := w
              dsimp only
              exact ih _ st2 hrest k1 k2 k3
    | false =>
      rw [Bool.not_false, Bool.true_and]
      cases part with
      | false =>
        rw [if_neg Bool.false_ne_true, if_neg Bool.false_ne_true]
        dsimp only
        exact ih acc st hrest h1 h2 h3
      | true =>
        rw [if_pos rfl]
        cases hqd : quick_diff st.fs r_mod srf with
        | error e =>
          dsimp only
          exact ⟨h1, h2, h3⟩
        | ok r =>
          cases r with
          | UpToDate =>
            dsimp only
            exact ih acc st hrest h1 h2 h3
          | NeedsFull =>
            dsimp only
            obtain ⟨hfs, Δ, hΔ, hben⟩ :=
              download_remote_srf_pres env st repo_url r_mod.mod_name false
            cases hdr : download_remote_srf env st repo_url r_mod.mod_name false with
            | mk st1 r1 =>
              rw [hdr] at hfs hΔ
              dsimp only at hfs hΔ
              have h1' : FSWF st1.fs := by rw [hfs]; exact h1
              have h2' : TraceInv st1 :=
                traceInv_extend st st1 hfs ⟨Δ, hΔ, fun e he => (hben e he).1⟩ h2
              have h3' : NoCacheWrite st1 :=
                noCacheWrite_extend st st1 ⟨Δ, hΔ, fun e he => (hben e he).2⟩ h3
              cases r1 with
              | error e =>
                exact ⟨h1', h2', h3'⟩
              | ok v =>
                obtain ⟨full_srf, b⟩ := v
                dsimp only
                cases hp : process_mod_diff env st1 r_mod full_srf false with
                | mk st2 r2 =>
                  have hpi := process_mod_diff_inv env st1 r_mod full_srf false
                    h1' h2' h3' hdirn
                  rw [hp] at hpi
                  dsimp only at hpi
                  obtain ⟨k1, k2, k3⟩ := hpi
                  cases r2 with
                  | error e =>
                    exact ⟨k1, k2, k3⟩
                  | ok w =>
                    obtain ⟨downloads, o⟩ := w
                    dsimp only
                    exact ih _ st2 hrest k1 k2 k3

theorem sync_mod_loop_no_cancel_err (env : Env) (repo_url : String)
    (force_sync : Bool) :
    ∀ (items : List (RepoMod × SrfMod × Bool))
      (acc : List DownloadCommand × List DownloadedSrf) (st : St)
      (e : SyncError),
      (sync_mod_loop env repo_url force_sync items acc st).2 = .error e →
      e ≠ SyncError.Cancelled := by
  intro items
  induction items with
  | nil =>
    intro acc st e h
    cases h
  | cons it rest ih =>
    obtain ⟨r_mod, srf, part⟩ := it
    intro acc st e h
    dsimp only [sync_mod_loop] at h
    cases force_sync with
    | true =>
      rw [Bool.not_true, Bool.false_and, if_neg Bool.false_ne_true,
        if_pos rfl] at h
      dsimp only at h
      cases hdr : download_remote_srf env st repo_url r_mod.mod_name false with
      | mk st1 r1 =>
        rw [hdr] at h
        cases r1 with
        | error e2 =>
          dsimp only at h
          injection h with h2
          subst h2
          exact download_remote_srf_no_cancel_err env st repo_url
            r_mod.mod_name false _ (by rw [hdr])
        | ok v =>
          obtain ⟨full_srf, b⟩ := v
          dsimp only at h
          cases hp : process_mod_diff env st1 r_mod full_srf true with
          | mk st2 r2 =>
            rw [hp] at h
            cases r2 with
            | error e2 =>
              dsimp only at h
              injection h with h2
              subst h2
              exact fun hx => SyncError.noConfusion hx
            | ok w =>
              obtain ⟨downloads, o⟩ := w
              dsimp only at h
              exact ih _ st2 e h
    | false =>
      rw [Bool.not_false, Bool.true_and] at h
      cases part with
      | false =>
        rw [if_neg Bool.false_ne_true, if_neg Bool.false_ne_true] at h
        dsimp only at h
        exact ih acc st e h
      | true =>
        rw [if_pos rfl] at h
        cases hqd : quick_diff st.fs r_mod srf with
        | error e2 =>
          rw [hqd] at h
          dsimp only at h
          injection h with h2
          subst h2
          exact fun hx => SyncError.noConfusion hx
        | ok r =>
          rw [hqd] at h
          cases r with
          | UpToDate =>
            dsimp only at h
            exact ih acc st e h
          | NeedsFull =>
            dsimp only at h
            cases hdr : download_remote_srf env st repo_url r_mod.mod_name false with
            | mk st1 r1 =>
              rw [hdr] at h
              cases r1 with
              | error e2 =>
                dsimp only at h
                injection h with h2
                subst h2
                exact download_remote_srf_no_cancel_err env st repo_url
                  r_mod.mod_name false _ (by rw [hdr])
              | ok v =>
                obtain ⟨full_srf, b⟩ := v
                dsimp only at h
                cases hp : process_mod_diff env st1 r_mod full_srf false with
                | mk st2 r2 =>
                  rw [hp] at h
                  cases r2 with
                  | error e2 =>
                    dsimp only at h
                    injection h with h2
                    subst h2
                    exact fun hx => SyncError.noConfusion hx
                  | ok w =>
                    obtain ⟨downloads, o⟩ := w
                    dsimp only at h
                    exact ih _ st2 e h

theorem writtenPresent_extend (st st' : St)
    (htr : ∃ Δ, st'.trace = st.trace ++ Δ ∧
      ∀ e ∈ Δ, ∀ p m, e ≠ Ev.writeSrf p m)
    (hmono : ∀ p, (st.fs.lookup p).isSome = true →
      (st'.fs.lookup p).isSome = true) :
    WrittenPresent st → WrittenPresent st' := by
  intro h p m hm
  obtain ⟨Δ, hΔ, hben⟩ := htr
  rw [hΔ, List.mem_append] at hm
  rcases hm with hm | hm
  · exact hmono p (h p m hm)
  · exact absurd rfl (hben _ hm p m)

theorem sync_stage2_cancelled (env : Env) (repo_url : String)
    (dry_run force_sync : Bool) (remote_repo : Repository)
    (mod_cache : ModCache) (st : St)
    (hnames : ∀ m ∈ remote_repo.required_mods, '/' ∉ m.mod_name.data)
    (h1 : FSWF st.fs) (h2 : TraceInv st) (h3 : NoCacheWrite st)
    (hc : (sync_stage2 env repo_url dry_run force_sync remote_repo
      mod_cache st).2 = .error SyncError.Cancelled) :
    NoCacheWrite (sync_stage2 env repo_url dry_run force_sync remote_repo
      mod_cache st).1 ∧
    WrittenPresent (sync_stage2 env repo_url dry_run force_sync remote_repo
      mod_cache st).1 := by
  dsimp only [sync_stage2] at hc ⊢
  cases hdp : download_partial_srfs env repo_url remote_repo.required_mods [] st with
  | mk st1 r1 =>
    rw [hdp] at hc
    cases r1 with
    | error e =>
      dsimp only at hc
      injection hc with he
      exact absurd he (download_partial_srfs_no_cancel_err env repo_url
        remote_repo.required_mods [] st e (by rw [hdp]))
    | ok partial_srfs =>
      dsimp only at hc ⊢
      obtain ⟨hfs, Δ, hΔ, hben⟩ :=
        download_partial_srfs_pres env repo_url remote_repo.required_mods [] st
      rw [hdp] at hfs hΔ
      dsimp only at hfs hΔ
      have h1' : FSWF st1.fs := by rw [hfs]; exact h1
      have h2' : TraceInv st1 :=
        traceInv_extend st st1 hfs ⟨Δ, hΔ, fun e he => (hben e he).1⟩ h2
      have h3' : NoCacheWrite st1 :=
        noCacheWrite_extend st st1 ⟨Δ, hΔ, fun e he => (hben e he).2⟩ h3
      have hnames1 : ∀ it ∈ partial_srfs, '/' ∉ it.1.mod_name.data := by
        intro it hit
        rcases download_partial_srfs_items env repo_url
            remote_repo.required_mods [] st partial_srfs (by rw [hdp]) it hit
          with hx | hx
        · cases hx
        · exact hnames it.1 hx
      cases hml : sync_mod_loop env repo_url force_sync partial_srfs ([], []) st1 with
      | mk st2 r2 =>
        rw [hml] at hc
        have hli := sync_mod_loop_inv env repo_url force_sync partial_srfs
          ([], []) st1 hnames1 h1' h2' h3'
        rw [hml] at hli
        dsimp only at hli
        obtain ⟨k1, k2, k3⟩ := hli
        cases r2 with
        | error e =>
          dsimp only at hc
          injection hc with he
          exact absurd he (sync_mod_loop_no_cancel_err env repo_url force_sync
            partial_srfs ([], []) st1 e (by rw [hml]))
        | ok w =>
          obtain ⟨download_commands, downloaded_srfs⟩ := w
          dsimp only at hc ⊢
          cases dry_run with
          | true =>
            rw [if_pos rfl] at hc
            cases hc
          | false =>
            rw [if_neg Bool.false_ne_true] at hc ⊢
            cases hex : execute_command_list env repo_url download_commands st2 with
            | mk st3 r3 =>
              rw [hex] at hc
              obtain ⟨⟨Δ2, hΔ2, hben2⟩, hmono⟩ :=
                execute_command_list_pres env repo_url download_commands st2
              rw [hex] at hΔ2
              have hmono2 : ∀ p, (st2.fs.lookup p).isSome = true →
                  (st3.fs.lookup p).isSome = true := by
                intro p hp
                have := hmono p hp
                rw [hex] at this
                exact this
              dsimp only at hΔ2
              cases r3 with
              | ok u =>
                cases u
                dsimp only at hc
                cases hc
              | error e =>
                dsimp only at hc ⊢
                constructor
                · exact noCacheWrite_extend st2 st3
                    ⟨Δ2, hΔ2, fun e2 he2 => (hben2 e2 he2).2⟩ k3
                · exact writtenPresent_extend st2 st3
                    ⟨Δ2, hΔ2, fun e2 he2 => (hben2 e2 he2).1⟩ hmono2
                    (traceInv_writtenPresent st2 k2)

/-- C9: for every sync invocation that returns `Cancelled` — the
cancellation flag observed at any checkpoint or during downloads — the
invocation never writes the cache file `<base>/nimble-cache.json` (no
`writeCache` event is in the final trace), while every per-mod `mod.srf`
written before the cancellation is left in place (every `writeSrf` path
of the final trace still resolves on the final filesystem).  Stated for
any run starting from an empty trace whose filesystem keys are
duplicate-free and whose repository lists only slash-free mod names. -/
theorem C9_cancelled_sync (env : Env) (repo_url : String)
    (dry_run force_sync : Bool) (st : St)
    (hwfnames : ∀ repo, env.repoResp = .ok repo →
      ∀ m ∈ repo.required_mods, '/' ∉ m.mod_name.data)
    (htrace : st.trace = [])
    (hwffs : FSWF st.fs)
    (hcancelled : (sync_with_context env repo_url dry_run force_sync st).2 =
      .error SyncError.Cancelled) :
    (∀ p c, Ev.writeCache p c ∉
      (sync_with_context env repo_url dry_run force_sync st).1.trace) ∧
    (∀ p m, Ev.writeSrf p m ∈
        (sync_with_context env repo_url dry_run force_sync st).1.trace →
      ((sync_with_context env repo_url dry_run force_sync st).1.fs.lookup
        p).isSome = true) := by
  have hst0 : FSWF (sync_force_step force_sync st).fs ∧
      TraceInv (sync_force_step force_sync st) ∧
      NoCacheWrite (sync_force_step force_sync st) ∧
      (∀ p m, Ev.writeSrf p m ∉ (sync_force_step force_sync st).trace) := by
    unfold sync_force_step
    cases hcond : (force_sync && st.fs.fileExists cacheFileName) with
    | false =>
      rw [if_neg Bool.false_ne_true]
      refine ⟨hwffs, ?_, ?_, ?_⟩
      · intro p m hm; rw [htrace] at hm; cases hm
      · intro p c hm; rw [htrace] at hm; cases hm
      · intro p m hm; rw [htrace] at hm; cases hm
    | true =>
      rw [if_pos rfl]
      refine ⟨FSWF_remove _ _ hwffs, ?_, ?_, ?_⟩
      · intro p m hm
        rcases List.mem_append.mp hm with hm | hm
        · rw [htrace] at hm; cases hm
        · simp at hm
      · intro p c hm
        rcases List.mem_append.mp hm with hm | hm
        · rw [htrace] at hm; cases hm
        · simp at hm
      · intro p m hm
        rcases List.mem_append.mp hm with hm | hm
        · rw [htrace] at hm; cases hm
        · simp at hm
  obtain ⟨g1, g2, g3, g4⟩ := hst0
  unfold sync_with_context at hcancelled ⊢
  dsimp only at hcancelled ⊢
  cases hc1 : env.cancel (sync_force_step force_sync st).clock with
  | true =>
    rw [hc1] at hcancelled
    rw [if_pos rfl]
    dsimp only
    constructor
    · intro p c
      exact g3 p c
    · intro p m hm
      exact absurd hm (g4 p m)
  | false =>
    rw [hc1] at hcancelled
    rw [if_neg Bool.false_ne_true] at hcancelled ⊢
    have g2' : TraceInv ((sync_force_step force_sync st).tick.emit
        (Ev.getHttp (make_repo_json_url repo_url) none)) := by
      intro p m hm
      rcases List.mem_append.mp hm with hm | hm
      · exact absurd hm (g4 p m)
      · simp at hm
    have g3' : NoCacheWrite ((sync_force_step force_sync st).tick.emit
        (Ev.getHttp (make_repo_json_url repo_url) none)) := by
      intro p c hm
      rcases List.mem_append.mp hm with hm | hm
      · exact g3 p c hm
      · simp at hm
    have g4' : ∀ p m, Ev.writeSrf p m ∉
        ((sync_force_step force_sync st).tick.emit
          (Ev.getHttp (make_repo_json_url repo_url) none)).trace := by
      intro p m hm
      rcases List.mem_append.mp hm with hm | hm
      · exact g4 p m hm
      · simp at hm
    cases hrr : env.repoResp with
    | error u =>
      rw [hrr] at hcancelled
      dsimp only at hcancelled
      injection hcancelled with he
      exact absurd he (fun hx => SyncError.noConfusion hx)
    | ok remote_repo =>
      rw [hrr] at hcancelled
      dsimp only at hcancelled ⊢
      cases hc2 : env.cancel ((sync_force_step force_sync st).tick.emit
          (Ev.getHttp (make_repo_json_url repo_url) none)).clock with
      | true =>
        rw [hc2] at hcancelled
        rw [if_pos rfl]
        dsimp only
        constructor
        · intro p c
          exact g3' p c
        · intro p m hm
          exact absurd hm (g4' p m)
      | false =>
        rw [hc2] at hcancelled
        rw [if_neg Bool.false_ne_true] at hcancelled ⊢
        cases hfd : ModCache.from_disk_or_empty
            (((sync_force_step force_sync st).tick.emit
              (Ev.getHttp (make_repo_json_url repo_url) none)).tick).fs with
        | error u =>
          rw [hfd] at hcancelled
          dsimp only at hcancelled
          injection hcancelled with he
          exact absurd he (fun hx => SyncError.noConfusion hx)
        | ok mod_cache =>
          rw [hfd] at hcancelled
          dsimp only at hcancelled ⊢
          exact sync_stage2_cancelled env repo_url dry_run force_sync
            remote_repo mod_cache _ (hwfnames remote_repo hrr) g1 g2' g3'
            hcancelled

/-- The state a concretely cancelled run starts from. -/
def stC9 : St := { fs := { files := [], dirs := [] }, trace := [], clock := 0 }

/-- An environment whose cancellation flag is set from the start. -/
def envC9 : Env :=
  { agg := fun _ _ => "", md5F := fun _ => "",
    repoResp := .error (), srfBody := fun _ _ => .error (),
    parseSrfStr := fun _ => .error (), blob := fun _ => .error (),
    cancel := fun _ => true, now := 0 }

/-- Witness for C9: a concrete run cancelled at the first checkpoint
satisfies every hypothesis of `C9_cancelled_sync`, and its conclusions
hold for the resulting final state. -/
theorem C9_cancelled_sync_witness :
    (∀ repo, envC9.repoResp = .ok repo →
      ∀ m ∈ repo.required_mods, '/' ∉ m.mod_name.data) ∧
    stC9.trace = [] ∧ FSWF stC9.fs ∧
    (sync_with_context envC9 "http://repo" false false stC9).2 =
      .error SyncError.Cancelled ∧
    ((∀ p c, Ev.writeCache p c ∉
      (sync_with_context envC9 "http://repo" false false stC9).1.trace) ∧
    (∀ p m, Ev.writeSrf p m ∈
        (sync_with_context envC9 "http://repo" false false stC9).1.trace →
      ((sync_with_context envC9 "http://repo" false false stC9).1.fs.lookup
        p).isSome = true)) := by
  refine ⟨?_, rfl, List.nodup_nil, by decide, ?_⟩
  · intro repo hx
    cases hx
  · exact C9_cancelled_sync envC9 "http://repo" false false stC9
      (fun repo hx => by cases hx) rfl List.nodup_nil (by decide)

end Nimble
